import Mathlib

/-!
Shallow embedding of the project reconstruction engine of the sb-downloader
repository (forkphorus/sb-downloader), together with proofs of the spec's
claims about it.

The embedding follows the source files:
  * `src/fetch-asset.js` — the global retrying asset fetch queue;
  * the downloader module (`src/downloader.js` and its newer revision):
    `makeAssetProgressTarget`, `storeProjectJSON`, `downloadScratch2`,
    `downloadScratch3`, `identifyProjectTypeFromJSON`,
    `downloadProjectFromBuffer`, `downloadProjectFromID` and
    `downloadFromScratchURLWithToken`.

Byte buffers are `List Nat` (each entry one byte), JS numbers used as ids are
`Int`, and the runtime's network is an explicit environment (a function from
attempt index or asset key to a response).
-/

namespace SBDL

/-! ## Asset fetch queue: `src/fetch-asset.js` -/

/-- Result of a single `fetch()` call as seen by `attemptToFetch`:
an HTTP response with a status code (`res.ok` iff 200 ≤ status < 300),
a network-level error, or an abort. -/
inductive FetchResponse where
  | status (code : Nat) (body : List Nat)
  | netError (tag : Nat)
  | abort
deriving DecidableEq, Repr

/-- Errors that can enter the `catch` handler of `attemptToFetch`:
the `HTTPError` thrown for an unexpected status, or a network error. -/
inductive AttemptError where
  | http (code : Nat)
  | net (tag : Nat)
deriving DecidableEq, Repr

/-- Outcome of one attempt in `attemptToFetch`, before retry handling:
either the promise chain resolves (with `some` buffer, or `none` for the
404/503 "asset does not exist" path), or an `AbortError` propagates,
or a failure reaches the `catch` block. -/
inductive AttemptStep where
  | resolved (data : Option (List Nat))
  | abortedStep
  | failed (e : AttemptError)
deriving DecidableEq, Repr

/-- Matches the JS notion `res.ok`: status in the 200 range. -/
def responseOk (code : Nat) : Bool := 200 ≤ code && code < 300

/-- The body of `attemptToFetch` in `src/fetch-asset.js` up to retry control:
`res.ok` resolves with the buffer; status 404 or 503 resolves with `null`
("don't retry if the asset doesn't exist", including the
assets.scratch.mit.edu 503 quirk); any other status throws `HTTPError`;
an abort propagates as an `AbortError`; a network error enters the catch. -/
def classifyAttempt : FetchResponse → AttemptStep
  | .status code body =>
    if responseOk code then .resolved (some body)
    else if code = 404 ∨ code = 503 then .resolved none
    else .failed (.http code)
  | .netError tag => .failed (.net tag)
  | .abort => .abortedStep

/-- Final settlement of a queued fetch task: the promise resolves with a
buffer, resolves with `null` (asset confirmed absent), rejects with the
wrapped `Failed to fetch` error carrying the first failure, or rejects
with an `AbortError`. -/
inductive FetchOutcome where
  | settled (data : Option (List Nat))
  | rejected (firstError : AttemptError)
  | aborted
deriving DecidableEq, Repr

/-- Retry loop of `startNextFetch`: attempt the fetch; on failure record the
first error (`if (!firstError) firstError = error`), retry while
`attempts < MAX_ATTEMPTS` (incrementing `attempts`), and otherwise reject
with the wrapped first error. `env i` is the response to the i-th fetch
call of this task; `retriesLeft` counts the remaining allowed increments of
`attempts` (initially `MAX_ATTEMPTS = 3`). Also returns the number of
fetch calls performed. -/
def runFetch (env : Nat → FetchResponse) :
    (retriesLeft : Nat) → (i : Nat) → (firstError : Option AttemptError) →
    FetchOutcome × Nat
  | retriesLeft, i, firstError =>
    match classifyAttempt (env i) with
    | .resolved d => (.settled d, 1)
    | .abortedStep => (.aborted, 1)
    | .failed e =>
      let fe := firstError.getD e
      match retriesLeft with
      | 0 => (.rejected fe, 1)
      | n + 1 =>
        let r := runFetch env n (i + 1) (some fe)
        (r.1, r.2 + 1)

/-- `MAX_ATTEMPTS` from `src/fetch-asset.js`. -/
def MAX_ATTEMPTS : Nat := 3

/-- A whole task as started by `startNextFetch`: `attempts` starts at 0 and
may be incremented while `attempts < MAX_ATTEMPTS`, so up to
`MAX_ATTEMPTS` retries follow the initial attempt. -/
def startNextFetchRun (env : Nat → FetchResponse) : FetchOutcome × Nat :=
  runFetch env MAX_ATTEMPTS 0 none

/-! ## Queue scheduling in `src/fetch-asset.js`

`fetchAsset` pushes `[resolve, url, options]` onto the global `queue` and
calls `checkStartNextFetch`; `finishedFetch` decrements `currentFetches` and
calls `checkStartNextFetch`. A task's promise is settled only inside
`startNextFetch` (`resolve(attemptToFetch())`), i.e. exactly when the task
is chosen by `checkStartNextFetch`; a task that is never chosen is never
resolved and never rejected. -/

/-- A queued task: its identity and whether `options.signal.aborted` holds
when the task is examined by `findNextFetch`. -/
structure FetchTask where
  tid : Nat
  sigAborted : Bool
deriving DecidableEq, Repr

/-- Shared scheduler counters of `src/fetch-asset.js`: `currentFetches` and
the pending `queue`. -/
structure QueueState where
  currentFetches : Int
  pending : List FetchTask
deriving DecidableEq, Repr

/-- `MAX_CONCURRENT` from `src/fetch-asset.js`. -/
def MAX_CONCURRENT : Nat := 100

/-- `findNextFetch`: repeatedly `queue.shift()`; a shifted task whose signal
is already aborted is skipped (`continue`), otherwise it is returned.
The result is the list of skipped (discarded) tasks, and either the chosen
task together with the remaining queue, or `none` when the queue ran out. -/
def findNextFetch : List FetchTask →
    List FetchTask × Option (FetchTask × List FetchTask)
  | [] => ([], none)
  | t :: rest =>
    if t.sigAborted then
      let r := findNextFetch rest
      (t :: r.1, r.2)
    else ([], some (t, rest))

/-- `checkStartNextFetch`: when `currentFetches < MAX_CONCURRENT`, dequeue
via `findNextFetch`; if a task was found, increment `currentFetches` and
start it. Returns the new state, the tasks discarded by this call, and the
task started by this call (if any). -/
def checkStartNextFetch (s : QueueState) :
    QueueState × List FetchTask × Option FetchTask :=
  if s.currentFetches < (MAX_CONCURRENT : Int) then
    match findNextFetch s.pending with
    | (d, some (t, rest)) =>
      ({ currentFetches := s.currentFetches + 1, pending := rest }, d, some t)
    | (d, none) => ({ s with pending := [] }, d, none)
  else (s, [], none)

/-- External events driving the scheduler: `fetchAsset` enqueuing a task, or
a started fetch completing (`finishedFetch`). -/
inductive QueueOp where
  | enqueue (t : FetchTask)
  | taskDone
deriving DecidableEq, Repr

/-- History of a scheduler run: current counters plus which tasks were ever
started (passed to `startNextFetch`) and which were discarded. -/
structure QueueRun where
  state : QueueState
  started : List FetchTask
  discarded : List FetchTask
deriving DecidableEq, Repr

/-- One scheduler step. `enqueue` is `fetchAsset` (push then
`checkStartNextFetch`); `taskDone` is `finishedFetch` (decrement then
`checkStartNextFetch`). -/
def stepQueue (r : QueueRun) (op : QueueOp) : QueueRun :=
  let s0 : QueueState :=
    match op with
    | .enqueue t => { r.state with pending := r.state.pending ++ [t] }
    | .taskDone => { r.state with currentFetches := r.state.currentFetches - 1 }
  let res := checkStartNextFetch s0
  { state := res.1
    started := r.started ++ res.2.2.toList
    discarded := r.discarded ++ res.2.1 }

/-- The scheduler's initial state: no fetches in flight, empty queue. -/
def initialQueueRun : QueueRun :=
  { state := { currentFetches := 0, pending := [] }, started := [], discarded := [] }

/-- A whole run of the scheduler from its initial state. -/
def runQueue (ops : List QueueOp) : QueueRun :=
  ops.foldl stepQueue initialQueueRun

/-- Counts the `taskDone` events of a run, i.e. how many started fetches
have completed. -/
def countDone (ops : List QueueOp) : Nat :=
  ops.countP (fun op => op = .taskDone)

/-! ## Throttled progress aggregator: `makeAssetProgressTarget` -/

/-- One `onProgress` call with category `assets`. -/
structure ProgressEvent where
  loaded : Nat
  total : Nat
deriving DecidableEq, Repr

/-- Errors thrown by the aggregator: `throwIfAborted` raising `AbortError`,
or the `Asset progress target used after completion` contract violation. -/
inductive ProgressError where
  | abortError
  | usedAfterCompletion
deriving DecidableEq, Repr

/-- Captured closure state of `makeAssetProgressTarget`: the two counters,
whether a `setTimeout` tick is pending, the `isDone` flag, and the trace of
`onProgress('assets', ...)` calls made so far (oldest first). -/
structure AssetProgressState where
  totalAssets : Nat
  loadedAssets : Nat
  timeoutScheduled : Bool
  isDone : Bool
  events : List ProgressEvent
deriving DecidableEq, Repr

/-- The aggregator's environment: whether `options.signal` is aborted and
whether `options.onProgress` was provided. -/
structure ProgressOptions where
  aborted : Bool
  hasOnProgress : Bool
deriving DecidableEq, Repr

/-- Fresh state created by `makeAssetProgressTarget`. -/
def initialProgressState : AssetProgressState :=
  { totalAssets := 0, loadedAssets := 0, timeoutScheduled := false
    isDone := false, events := [] }

/-- Appends an `onProgress('assets', loaded, total)` call when a callback
was provided. -/
def emitEvent (o : ProgressOptions) (s : AssetProgressState) : AssetProgressState :=
  if o.hasOnProgress then
    { s with events := s.events ++ [⟨s.loadedAssets, s.totalAssets⟩] }
  else s

/-- `emitProgressUpdate`: first `throwIfAborted`; then throw if already done;
when `totalAssets === loadedAssets`, emit immediately (do not wait for the
timeout), mark done and `clearTimeout`; otherwise schedule a timeout tick
if none is pending. -/
def emitProgressUpdate (o : ProgressOptions) (s : AssetProgressState) :
    Except ProgressError AssetProgressState :=
  if o.aborted then .error .abortError
  else if s.isDone then .error .usedAfterCompletion
  else if s.totalAssets = s.loadedAssets then
    .ok { emitEvent o s with isDone := true, timeoutScheduled := false }
  else if !s.timeoutScheduled then
    .ok { s with timeoutScheduled := true }
  else .ok s

/-- The `fetching` member of the returned progress target:
`totalAssets++` then `emitProgressUpdate()`. -/
def progressFetching (o : ProgressOptions) (s : AssetProgressState) :
    Except ProgressError AssetProgressState :=
  emitProgressUpdate o { s with totalAssets := s.totalAssets + 1 }

/-- The `fetched` member of the returned progress target:
`loadedAssets++` then `emitProgressUpdate()`. -/
def progressFetched (o : ProgressOptions) (s : AssetProgressState) :
    Except ProgressError AssetProgressState :=
  emitProgressUpdate o { s with loadedAssets := s.loadedAssets + 1 }

/-- The pending `setTimeout` callback firing: `throwIfAborted`, clear the
pending flag, then emit the current counters. Only meaningful when
`timeoutScheduled` is set. -/
def progressTimeoutFire (o : ProgressOptions) (s : AssetProgressState) :
    Except ProgressError AssetProgressState :=
  if o.aborted then .error .abortError
  else .ok (emitEvent o { s with timeoutScheduled := false })

/-! ## Project descriptions

JS object fields that the code probes with truthiness (`md5ext`,
`textLayerMD5`, tokens, titles) are `String`s where the empty string plays
the role of a missing/falsy field, exactly matching `x || fallback` and
`if (x)` in the source. Integer id fields (`baseLayerID`, `textLayerID`,
`soundID`) are `Int` since the code compares them with `>= 0`. -/

/-- An sb3 costume or sound record (`SB3Asset` in the source). -/
structure SB3Asset where
  assetId : String
  dataFormat : String
  md5ext : String
deriving DecidableEq, Repr

/-- An sb3 target (`SB3Target`). -/
structure SB3Target where
  costumes : List SB3Asset
  sounds : List SB3Asset
deriving DecidableEq, Repr

/-- An sb3 project description (`SB3Project`): the `targets` field. -/
structure SB3Project where
  targets : List SB3Target
deriving DecidableEq, Repr

/-- An sb2 costume record (`SB2Costume`): `textLayerMD5 = ""` models the
absent/falsy field. -/
structure SB2Costume where
  baseLayerMD5 : String
  baseLayerID : Int
  textLayerMD5 : String
  textLayerID : Int
deriving DecidableEq, Repr

/-- An sb2 sound record (`SB2Sound`). -/
structure SB2Sound where
  md5 : String
  soundID : Int
deriving DecidableEq, Repr

/-- An sb2 sprite: the fields of the root object / a `children` entry that
the reconciler reads. -/
structure SB2Sprite where
  costumes : List SB2Costume
  sounds : List SB2Sound
deriving DecidableEq, Repr

/-- A `children` entry of an sb2 project: a sprite, or a monitor. The two
monitor kinds are the entries with a truthy `listName` resp. `target`
field, which `downloadScratch2` filters out of the target list. -/
inductive SB2Child where
  | sprite (s : SB2Sprite)
  | listMonitor (listName : String)
  | variableMonitor (target : String)
deriving DecidableEq, Repr

/-- An sb2 project description: the root sprite (the object with `objName`)
plus its `children`. -/
structure SB2Project where
  root : SB2Sprite
  children : List SB2Child
deriving DecidableEq, Repr

/-- A parsed project description, tagged by which top-level property it
carries (`targets` for sb3, `objName` for sb2, neither otherwise). -/
inductive ProjectData where
  | sb3Data (p : SB3Project)
  | sb2Data (p : SB2Project)
  | unknownData (tag : Nat)
deriving DecidableEq, Repr

/-- The `type` field of a `DownloadedProject`. -/
inductive ProjectType where
  | sb
  | sb2
  | sb3
deriving DecidableEq, Repr

/-- `identifyProjectTypeFromJSON`: `targets` present means sb3, else
`objName` present means sb2, else `null`. -/
def identifyProjectTypeFromJSON : ProjectData → Option ProjectType
  | .sb3Data _ => some .sb3
  | .sb2Data _ => some .sb2
  | .unknownData _ => none

/-! ## Zip (archive codec) model

The archive codec (JSZip) is treated per the spec as a black box that
stores named blobs in insertion order; `zip.file(name, data)` replaces an
existing entry in place or appends a new one, matching JS object property
semantics of `zip.files`. `project.json` contents are stored structurally
(the JSON codec is also a black box), so a member is either a parsed
project value or raw bytes. -/

/-- Contents of one archive member. -/
inductive FileData where
  | jsonFile (pd : ProjectData)
  | bytesFile (data : List Nat)
deriving DecidableEq, Repr

/-- One archive member. -/
structure ZipEntry where
  path : String
  data : FileData
deriving DecidableEq, Repr

/-- An open archive: members in `zip.files` order. -/
structure Zip where
  files : List ZipEntry
deriving DecidableEq, Repr

/-- `new JSZip()`. -/
def emptyZip : Zip := { files := [] }

/-- Member lookup, `zip.file(path)` truthiness. -/
def zipHas (z : Zip) (p : String) : Bool :=
  z.files.any (fun e => e.path = p)

/-- Member lookup returning the content. -/
def zipGet (z : Zip) (p : String) : Option FileData :=
  (z.files.find? (fun e => e.path = p)).map (fun e => e.data)

/-- `zip.file(path, data)`: replace in place if the path exists, else
append. -/
def zipSet (z : Zip) (p : String) (d : FileData) : Zip :=
  if zipHas z p then
    { files := z.files.map (fun e => if e.path = p then ⟨p, d⟩ else e) }
  else { files := z.files ++ [⟨p, d⟩] }

/-- `zip.remove(path)`. -/
def zipRemove (z : Zip) (p : String) : Zip :=
  { files := z.files.filter (fun e => ¬(e.path = p)) }

/-- The member names of an archive. -/
def zipPaths (z : Zip) : List String := z.files.map (fun e => e.path)

/-! ## Options and results -/

/-- The recognized download options. `aborted` is the state of
`options.signal` (held fixed over the modelled call), `compress` is
`options.compress !== false`, `hasOnProgress` whether `onProgress` was
passed. `processJSON` optionally maps (type, data) to a replacement. -/
structure DLOptions where
  aborted : Bool
  date : Option Nat
  compress : Bool
  processJSON : Option (ProjectType → ProjectData → Option ProjectData)
  hasOnProgress : Bool

/-- The default date `new Date('Fri, 31 Dec 2021 00:00:00 GMT')`, as a unix
timestamp in milliseconds. -/
def DEFAULT_PROJECT_DATE : Nat := 1640908800000

/-- The timestamp `generateZip` stamps on every member. -/
def jsDate (o : DLOptions) : Nat := o.date.getD DEFAULT_PROJECT_DATE

/-- Errors raised by the downloader module. -/
inductive DLError where
  | abortError
  | unknownProjectType
  | notZipOrSb
  | jsonParseError
  | missingProjectJSON
  | pathConflict (path : String)
  | cannotAccessProject
  | httpError (status : Nat)
  | genericError (tag : Nat)
deriving DecidableEq, Repr

/-- The bytes returned by a download: either the input buffer unchanged, or
the serialization of an archive whose members were all stamped with one
date and compressed (or stored) per the `compress` flag. Serialization is
the black-box codec, so two outputs are byte-identical when built from the
same members, date and flag. -/
inductive OutBytes where
  | original (bytes : List Nat)
  | generated (files : List ZipEntry) (date : Nat) (deflate : Bool)
deriving DecidableEq, Repr

/-- A `DownloadedProject`. -/
structure DownloadedProject where
  title : String
  type : ProjectType
  arrayBuffer : OutBytes
deriving DecidableEq, Repr

/-! ## storeProjectJSON -/

/-- `storeProjectJSON`: when `processJSON` is given and returns a truthy
replacement, write it as `project.json` and report the zip modified;
otherwise write the description only when `project.json` is not already a
member (so re-processed sb2 archives keep their original JSON). -/
def storeProjectJSON (zip : Zip) (type : ProjectType) (pd : ProjectData)
    (o : DLOptions) : Zip × Bool :=
  let fallback : Zip × Bool :=
    if zipHas zip "project.json" then (zip, false)
    else (zipSet zip "project.json" (.jsonFile pd), true)
  match o.processJSON with
  | some f =>
    match f type pd with
    | some newData => (zipSet zip "project.json" (.jsonFile newData), true)
    | none => fallback
  | none => fallback

/-! ## Asset transport seen by the reconcilers

`fetchAsArrayBuffer` resolves with the asset bytes, or with `null` when the
transport reports the asset absent (the 404/503 path of the fetch queue,
`classifyAttempt`). The reconcilers consume it through an environment
mapping each asset key (md5ext) to that settled value; a fetch that
ultimately rejects aborts the whole reconciliation and is not modelled
inside the archive-building pipeline. -/

/-- The progress events a reconciler feeds its progress target. -/
inductive PEvent where
  | fetchingEv (md5ext : String)
  | fetchedEv (md5ext : String)
deriving DecidableEq, Repr

/-- Count of `fetching` calls in a trace (what `totalAssets` reaches). -/
def countFetching (tr : List PEvent) : Nat :=
  tr.countP (fun e => match e with | .fetchingEv _ => true | .fetchedEv _ => false)

/-- Count of `fetched` calls in a trace (what `loadedAssets` reaches). -/
def countFetched (tr : List PEvent) : Nat :=
  tr.countP (fun e => match e with | .fetchingEv _ => false | .fetchedEv _ => true)

/-- Result of `downloadScratch2` / `downloadScratch3`: the zip, how many
assets were fetched, whether `project.json` was (re)written, and the trace
of progress-target calls. -/
structure ReconcileResult where
  zip : Zip
  downloadedAssets : Nat
  modifiedJSON : Bool
  trace : List PEvent
deriving Repr

/-- Modelled from the spec: absent blobs (fetches settled with `null`) are
silently omitted from the archive, they are not errors. In the snapshot's
sources the fetched `(path, data)` pairs are written with `zip.file(path,
data)` and the `data !== null` guard lives in the released revision of the
downloader (not among the snapshot's source files), whose behaviour the
repository's `nonexistent-assets` tests pin down: the produced archive has
no member for an absent asset. -/
def addFetchedFiles (zip : Zip) (files : List (String × Option (List Nat))) : Zip :=
  files.foldl
    (fun z pd =>
      match pd.2 with
      | some d => zipSet z pd.1 (.bytesFile d)
      | none => z)
    zip

/-! ## Modern (v3) reconciler: `downloadScratch3` -/

/-- `flat`: one-level flattening used on the per-target costume/sound
lists. -/
def flat {α : Type} (xs : List (List α)) : List α := xs.flatMap id

/-- The md5ext key of an sb3 asset record:
`asset.md5ext || assetId.dataFormat` (empty string is falsy). -/
def assetMd5ext (a : SB3Asset) : String :=
  if a.md5ext = "" then a.assetId ++ "." ++ a.dataFormat else a.md5ext

/-- Loop body of `prepareAssets` (newer revision): skip a key already seen
in this pass, skip a key already present in the destination zip, otherwise
record it as known and missing. -/
def prepareAssetsAux (zip : Zip) : List SB3Asset → List String → List String
  | [], _ => []
  | a :: rest, known =>
    let k := assetMd5ext a
    if k ∈ known then prepareAssetsAux zip rest known
    else if zipHas zip k then prepareAssetsAux zip rest known
    else k :: prepareAssetsAux zip rest (k :: known)

/-- `prepareAssets`: the deduplicated list of md5ext keys that still have to
be fetched, in first-encounter order. -/
def prepareAssets (zip : Zip) (assets : List SB3Asset) : List String :=
  prepareAssetsAux zip assets []

/-- All costume records of an sb3 project followed by all sound records,
flattened across targets in order (`[...costumes, ...sounds]`). -/
def sb3Assets (p : SB3Project) : List SB3Asset :=
  flat (p.targets.map (fun t => t.costumes)) ++ flat (p.targets.map (fun t => t.sounds))

/-- `downloadScratch3` given an already-open destination zip and the settled
transport `env`: dedupe and filter the asset list, fetch each missing key
(each fetch calls `fetching` then, after it settles, `fetched` — also for
absent assets), store `project.json`, then add the fetched files. -/
def downloadScratch3Zip (p : SB3Project) (zip : Zip)
    (env : String → Option (List Nat)) (o : DLOptions) : ReconcileResult :=
  let missing := prepareAssets zip (sb3Assets p)
  let filesToAdd := missing.map (fun k => (k, env k))
  let stored := storeProjectJSON zip .sb3 (.sb3Data p) o
  { zip := addFetchedFiles stored.1 filesToAdd
    downloadedAssets := filesToAdd.length
    modifiedJSON := stored.2
    trace := missing.flatMap (fun k => [.fetchingEv k, .fetchedEv k]) }

/-! ## Legacy (v2) reconciler: `downloadScratch2` -/

/-- Splitting a character list at a separator, as JS `String.split` does:
`split('.')` of `"a.b.c"` is `["a","b","c"]`, of `""` is `[""]`. -/
def splitOnChar (sep : Char) : List Char → List (List Char)
  | [] => [[]]
  | c :: rest =>
    let r := splitOnChar sep rest
    if c = sep then [] :: r
    else
      match r with
      | [] => [[c]]
      | g :: gs => (c :: g) :: gs

/-- `getExtension`: `md5ext.split('.')[1] || ''`. -/
def getExtension (md5ext : String) : String :=
  match splitOnChar '.' md5ext.toList with
  | _ :: second :: _ => ⟨second⟩
  | _ => ""

/-- The file name `id.extension` used for v2 archive members. -/
def pathFor (id : Int) (ext : String) : String :=
  toString id ++ "." ++ ext

/-- The `md5extToId` map: a JS `Map` as an insertion-ordered association
list. -/
def mapHas (m : List (String × Int)) (k : String) : Bool :=
  m.any (fun e => e.1 = k)

/-- `md5extToId.get`. -/
def mapGet (m : List (String × Int)) (k : String) : Option Int :=
  (m.find? (fun e => e.1 = k)).map (fun e => e.2)

/-- `md5extToId.set`: update in place or append. -/
def mapSet (m : List (String × Int)) (k : String) (v : Int) : List (String × Int) :=
  if mapHas m k then m.map (fun e => if e.1 = k then (k, v) else e)
  else m ++ [(k, v)]

/-- First (pre-seeding) pass of `downloadAssets` over the costumes: a
costume whose recorded `baseLayerID` is non-negative and whose file
`id.ext` (extension defaulting to png) is already in the destination zip
registers its key-to-id binding and raises `largestCostumeId`; likewise
for a truthy `textLayerMD5` with its `id.png` file. -/
def preSeedCostumes (zip : Zip) :
    List SB2Costume → List (String × Int) → Int → List (String × Int) × Int
  | [], m, largest => (m, largest)
  | c :: rest, m, largest =>
    let e := getExtension c.baseLayerMD5
    let baseExt := if e = "" then "png" else e
    let acc1 :=
      if c.baseLayerID ≥ 0 ∧ zipHas zip (pathFor c.baseLayerID baseExt) then
        (mapSet m c.baseLayerMD5 c.baseLayerID, max largest c.baseLayerID)
      else (m, largest)
    let acc2 :=
      if c.textLayerMD5 ≠ "" then
        if c.textLayerID ≥ 0 ∧ zipHas zip (pathFor c.textLayerID "png") then
          (mapSet acc1.1 c.textLayerMD5 c.textLayerID, max acc1.2 c.textLayerID)
        else acc1
      else acc1
    preSeedCostumes zip rest acc2.1 acc2.2

/-- First (pre-seeding) pass over the sounds. -/
def preSeedSounds (zip : Zip) :
    List SB2Sound → List (String × Int) → Int → List (String × Int) × Int
  | [], m, largest => (m, largest)
  | s :: rest, m, largest =>
    let acc :=
      if s.soundID ≥ 0 ∧ zipHas zip (pathFor s.soundID (getExtension s.md5)) then
        (mapSet m s.md5 s.soundID, max largest s.soundID)
      else (m, largest)
    preSeedSounds zip rest acc.1 acc.2

/-- Mutable state of the second (assignment) pass of `downloadAssets`. -/
structure V2AssignState where
  map : List (String × Int)
  needToFetch : List String
  costumeAcc : Int
  soundAcc : Int
deriving DecidableEq, Repr

/-- `assignCostumeId`: an unseen key is queued for fetch and bound to the
next costume-namespace id; the binding's value is returned either way. -/
def assignCostumeId (s : V2AssignState) (k : String) : Int × V2AssignState :=
  if mapHas s.map k then ((mapGet s.map k).getD 0, s)
  else
    (s.costumeAcc,
     { s with
        needToFetch := s.needToFetch ++ [k]
        map := mapSet s.map k s.costumeAcc
        costumeAcc := s.costumeAcc + 1 })

/-- `assignSoundId`: sound-namespace counterpart of `assignCostumeId`. -/
def assignSoundId (s : V2AssignState) (k : String) : Int × V2AssignState :=
  if mapHas s.map k then ((mapGet s.map k).getD 0, s)
  else
    (s.soundAcc,
     { s with
        needToFetch := s.needToFetch ++ [k]
        map := mapSet s.map k s.soundAcc
        soundAcc := s.soundAcc + 1 })

/-- Assignment-pass body for one costume: rewrite `baseLayerID` and, when
`textLayerMD5` is truthy, `textLayerID`. -/
def processCostume (s : V2AssignState) (c : SB2Costume) : SB2Costume × V2AssignState :=
  let b := assignCostumeId s c.baseLayerMD5
  if c.textLayerMD5 ≠ "" then
    let t := assignCostumeId b.2 c.textLayerMD5
    ({ c with baseLayerID := b.1, textLayerID := t.1 }, t.2)
  else ({ c with baseLayerID := b.1 }, b.2)

/-- Assignment pass over all costumes, in order. -/
def processCostumes (s : V2AssignState) :
    List SB2Costume → List SB2Costume × V2AssignState
  | [] => ([], s)
  | c :: rest =>
    let r := processCostume s c
    let rs := processCostumes r.2 rest
    (r.1 :: rs.1, rs.2)

/-- Assignment-pass body for one sound: rewrite `soundID`. -/
def processSound (s : V2AssignState) (snd : SB2Sound) : SB2Sound × V2AssignState :=
  let r := assignSoundId s snd.md5
  ({ snd with soundID := r.1 }, r.2)

/-- Assignment pass over all sounds, in order. -/
def processSounds (s : V2AssignState) :
    List SB2Sound → List SB2Sound × V2AssignState
  | [] => ([], s)
  | snd :: rest =>
    let r := processSound s snd
    let rs := processSounds r.2 rest
    (r.1 :: rs.1, rs.2)

/-- Result of `downloadAssets` in `downloadScratch2`: the rewritten records,
the final key-to-id map, the fetch list, and the final accumulators. -/
structure V2Result where
  costumes : List SB2Costume
  sounds : List SB2Sound
  map : List (String × Int)
  needToFetch : List String
  costumeAcc : Int
  soundAcc : Int
  largestCostumeId : Int
  largestSoundId : Int
deriving DecidableEq, Repr

/-- `downloadAssets` of `downloadScratch2` (newer revision): pre-seed from
the destination zip, start each namespace accumulator after the largest
pre-seeded id (or at 0), then assign ids to the costumes and sounds in
order. -/
def downloadAssetsV2 (zip : Zip) (costumes : List SB2Costume)
    (sounds : List SB2Sound) : V2Result :=
  let pc := preSeedCostumes zip costumes [] (-1)
  let ps := preSeedSounds zip sounds pc.1 (-1)
  let s0 : V2AssignState :=
    { map := ps.1
      needToFetch := []
      costumeAcc := if pc.2 = -1 then 0 else pc.2 + 1
      soundAcc := if ps.2 = -1 then 0 else ps.2 + 1 }
  let rc := processCostumes s0 costumes
  let rs := processSounds rc.2 sounds
  { costumes := rc.1
    sounds := rs.1
    map := rs.2.map
    needToFetch := rs.2.needToFetch
    costumeAcc := rs.2.costumeAcc
    soundAcc := rs.2.soundAcc
    largestCostumeId := pc.2
    largestSoundId := ps.2 }

/-- The sprites of an sb2 project in scan order: the root object plus the
`children` entries that are sprites (monitors, which carry a truthy
`listName` or `target`, are filtered out). -/
def spritesOf (p : SB2Project) : List SB2Sprite :=
  p.root :: p.children.filterMap
    (fun ch =>
      match ch with
      | .sprite s => some s
      | .listMonitor _ => none
      | .variableMonitor _ => none)

/-- Writes the rewritten flattened costume/sound lists back into the sprite
list, sprite by sprite (the source mutates the shared records in place;
the embedding redistributes them by position). -/
def assignBack : List SB2Sprite → List SB2Costume → List SB2Sound → List SB2Sprite
  | [], _, _ => []
  | s :: rest, cs, ss =>
    { s with
        costumes := cs.take s.costumes.length
        sounds := ss.take s.sounds.length }
      :: assignBack rest (cs.drop s.costumes.length) (ss.drop s.sounds.length)

/-- Rebuilds the `children` list with the rewritten sprites in their
original positions, monitors untouched. -/
def rebuildChildren : List SB2Child → List SB2Sprite → List SB2Child
  | [], _ => []
  | .sprite old :: rest, [] => .sprite old :: rebuildChildren rest []
  | .sprite _ :: rest, s :: ss => .sprite s :: rebuildChildren rest ss
  | .listMonitor n :: rest, ss => .listMonitor n :: rebuildChildren rest ss
  | .variableMonitor n :: rest, ss => .variableMonitor n :: rebuildChildren rest ss

/-- The sb2 project as it stands after the reconciler's in-place id
rewriting. -/
def rewriteSB2Project (p : SB2Project) (cs : List SB2Costume)
    (ss : List SB2Sound) : SB2Project :=
  match assignBack (spritesOf p) cs ss with
  | [] => p
  | rootS :: restS => { root := rootS, children := rebuildChildren p.children restS }

/-- `downloadScratch2` given an already-open destination zip and the settled
transport `env`: collect targets, flatten costumes and sounds, run
`downloadAssets`, store the mutated description as `project.json` (after
the fetches), then add the fetched files under `id.extension` names. -/
def downloadScratch2Zip (p : SB2Project) (zip : Zip)
    (env : String → Option (List Nat)) (o : DLOptions) : ReconcileResult :=
  let sprites := spritesOf p
  let costumes := flat (sprites.map (fun s => s.costumes))
  let sounds := flat (sprites.map (fun s => s.sounds))
  let r := downloadAssetsV2 zip costumes sounds
  let filesToAdd := r.needToFetch.map
    (fun k => (pathFor ((mapGet r.map k).getD 0) (getExtension k), env k))
  let p2 := rewriteSB2Project p r.costumes r.sounds
  let stored := storeProjectJSON zip .sb2 (.sb2Data p2) o
  { zip := addFetchedFiles stored.1 filesToAdd
    downloadedAssets := filesToAdd.length
    modifiedJSON := stored.2
    trace := r.needToFetch.flatMap (fun k => [.fetchingEv k, .fetchedEv k]) }

/-- The (AssetKey, assigned id) pairs of every record slot the assignment
pass rewrites: `(baseLayerMD5, baseLayerID)` of each costume,
`(textLayerMD5, textLayerID)` of each costume with a truthy text layer,
and `(md5, soundID)` of each sound. -/
def v2AssignedPairs (r : V2Result) : List (String × Int) :=
  r.costumes.map (fun c => (c.baseLayerMD5, c.baseLayerID))
    ++ (r.costumes.filter (fun c => c.textLayerMD5 != "")).map
        (fun c => (c.textLayerMD5, c.textLayerID))
    ++ r.sounds.map (fun s => (s.md5, s.soundID))

/-- The image-namespace integer ids carried by a costume list: all
`baseLayerID`s and the `textLayerID`s of costumes with a truthy text
layer. -/
def imageIdsOf (cs : List SB2Costume) : List Int :=
  cs.map (fun c => c.baseLayerID)
    ++ (cs.filter (fun c => c.textLayerMD5 != "")).map (fun c => c.textLayerID)

/-- The sound-namespace integer ids carried by a sound list. -/
def soundIdsOf (ss : List SB2Sound) : List Int :=
  ss.map (fun s => s.soundID)

/-- The asset keys a costume list can bind during the assignment pass. -/
def costumeKeys (cs : List SB2Costume) : List String :=
  cs.map (fun c => c.baseLayerMD5)
    ++ (cs.filter (fun c => c.textLayerMD5 != "")).map (fun c => c.textLayerMD5)

/-- The integer ids assigned in the image (costume) namespace. -/
def v2ImageIds (r : V2Result) : List Int :=
  imageIdsOf r.costumes

/-- The integer ids assigned in the sound namespace. -/
def v2SoundIds (r : V2Result) : List Int :=
  soundIdsOf r.sounds

/-- Whether this costume satisfies the pre-seeding conditions of the first
pass of `downloadAssets` (recorded ids non-negative and the corresponding
files already in the destination zip). -/
def costumePreseeded (z : Zip) (c : SB2Costume) : Bool :=
  let e := getExtension c.baseLayerMD5
  let baseExt := if e = "" then "png" else e
  (decide (c.baseLayerID ≥ 0) && zipHas z (pathFor c.baseLayerID baseExt)) &&
    (if c.textLayerMD5 ≠ "" then
      decide (c.textLayerID ≥ 0) && zipHas z (pathFor c.textLayerID "png")
     else true)

/-- Whether this sound satisfies the pre-seeding conditions of the first
pass of `downloadAssets`. -/
def soundPreseeded (z : Zip) (s : SB2Sound) : Bool :=
  decide (s.soundID ≥ 0) && zipHas z (pathFor s.soundID (getExtension s.md5))

/-- Whether every costume and sound is pre-seeded, i.e. the archive already
holds every referenced asset under its recorded id (the state an archive
previously produced by the v2 reconciler is in). -/
def v2Preseeded (z : Zip) (cs : List SB2Costume) (ss : List SB2Sound) : Bool :=
  cs.all (costumePreseeded z) && ss.all (soundPreseeded z)

/-! ## Orchestrator: `downloadProjectFromJSON` and `downloadProjectFromBuffer` -/

/-- `downloadProjectFromJSON` on an already-parsed description: dispatch on
the identified type, build a fresh archive, then serialize it with the
chosen date and compression. The abort signal is modelled as fixed for the
call, so one check stands for the `throwIfAborted` boundaries. -/
def downloadProjectFromJSONM (pd : ProjectData)
    (env : String → Option (List Nat)) (o : DLOptions) :
    Except DLError DownloadedProject :=
  if o.aborted then .error .abortError
  else
    match pd with
    | .sb3Data p3 =>
      let r := downloadScratch3Zip p3 emptyZip env o
      .ok { title := "", type := .sb3
            arrayBuffer := .generated r.zip.files (jsDate o) o.compress }
    | .sb2Data p2 =>
      let r := downloadScratch2Zip p2 emptyZip env o
      .ok { title := "", type := .sb2
            arrayBuffer := .generated r.zip.files (jsDate o) o.compress }
    | .unknownData _ => .error .unknownProjectType

/-- A raw input buffer together with what the black-box codecs make of it:
`asZip` is the result of `JSZip.loadAsync(data)` (some archive or a parse
failure) and `asJSON` the result of `ExtendedJSON.parse` of its text. -/
structure BufferInput where
  bytes : List Nat
  asZip : Option Zip
  asJSON : Option ProjectData
deriving Repr

/-- The 8 bytes of the magic prefix `ScratchV`. -/
def SCRATCH_MAGIC : List Nat := [83, 99, 114, 97, 116, 99, 104, 86]

/-- `isScratch1Project`: the first 8 bytes equal the magic (reading past the
end yields `undefined`, which never matches, so shorter buffers fail). -/
def isScratch1Project (bytes : List Nat) : Bool :=
  bytes.take 8 = SCRATCH_MAGIC

/-- `isProbablyJSON`: first byte is `\x7b` (123). -/
def isProbablyJSON (bytes : List Nat) : Bool :=
  match bytes with
  | [] => false
  | b :: _ => b = 123

/-- `path.includes('/')`. -/
def hasSlash (p : String) : Bool :=
  p.toList.contains '/'

/-- `path.endsWith('/')`, marking a directory entry. -/
def endsWithSlash (p : String) : Bool :=
  p.toList.getLast? = some '/'

/-- Last `/`-separated segment of a path (`parts[parts.length - 1]`). -/
def lastSegment (p : String) : String :=
  match (splitOnChar '/' p.toList).getLast? with
  | some seg => ⟨seg⟩
  | none => p

/-- One iteration of the flattening loop of `downloadProjectFromBuffer`:
directory entries and already-root paths are skipped; a member in a
subdirectory is moved to the root, raising a path-conflict error when the
root name is taken. -/
def flattenEntry (acc : Except DLError (Zip × Bool)) (oldPath : String) :
    Except DLError (Zip × Bool) :=
  match acc with
  | .error e => .error e
  | .ok zm =>
    if endsWithSlash oldPath ∨ ¬(hasSlash oldPath = true) then .ok zm
    else
      let newPath := lastSegment oldPath
      if zipHas zm.1 newPath then .error (.pathConflict oldPath)
      else
        match zipGet zm.1 oldPath with
        | some d => .ok (zipRemove (zipSet zm.1 newPath d) oldPath, true)
        | none => .ok zm

/-- The whole flattening loop, iterating over a snapshot of the member
names; the boolean reports whether anything moved (which forces
re-zipping). -/
def flattenZip (z : Zip) : Except DLError (Zip × Bool) :=
  (zipPaths z).foldl flattenEntry (.ok (z, false))

/-- The second loop: remove the now-empty subdirectory entries themselves. -/
def removeDirEntries (z : Zip) : Zip :=
  { files := z.files.filter (fun e => ¬(hasSlash e.path = true)) }

/-- Parsing an archive member as a project description: the JSON codec is a
black box, so only a structurally stored description parses. -/
def parseProjectFile : FileData → Option ProjectData
  | .jsonFile pd => some pd
  | .bytesFile _ => none

/-- `downloadProjectFromBuffer`: a buffer starting with `\x7b` is treated as
JSON text and reconciled from scratch; a buffer with the `ScratchV` magic
is returned as-is as an sb project; anything else must open as a zip,
whose members are flattened to the root, whose `project.json` decides the
type, and which is re-serialized only when a date was requested, members
moved, assets were downloaded, or `project.json` was rewritten — otherwise
the original bytes are returned unchanged. -/
def downloadProjectFromBufferM (buf : BufferInput)
    (env : String → Option (List Nat)) (o : DLOptions) :
    Except DLError DownloadedProject :=
  if o.aborted then .error .abortError
  else if isProbablyJSON buf.bytes then
    match buf.asJSON with
    | some pd => downloadProjectFromJSONM pd env o
    | none => .error .jsonParseError
  else if isScratch1Project buf.bytes then
    .ok { title := "", type := .sb, arrayBuffer := .original buf.bytes }
  else
    match buf.asZip with
    | none => .error .notZipOrSb
    | some zip0 =>
      match flattenZip zip0 with
      | .error e => .error e
      | .ok fm =>
        let zip1 := removeDirEntries fm.1
        match zipGet zip1 "project.json" with
        | none => .error .missingProjectJSON
        | some fd =>
          match parseProjectFile fd with
          | none => .error .jsonParseError
          | some pd =>
            let finish := fun (r : ReconcileResult) (t : ProjectType) =>
              let needToReZip :=
                o.date.isSome || fm.2 || (r.downloadedAssets != 0) || r.modifiedJSON
              let outBytes :=
                if needToReZip then
                  OutBytes.generated r.zip.files (jsDate o) o.compress
                else OutBytes.original buf.bytes
              Except.ok (ε := DLError)
                { title := "", type := t, arrayBuffer := outBytes }
            match pd with
            | .sb3Data p3 => finish (downloadScratch3Zip p3 zip1 env o) .sb3
            | .sb2Data p2 => finish (downloadScratch2Zip p2 zip1 env o) .sb2
            | .unknownData _ => .error .unknownProjectType

/-! ## ID-based entry points and metadata tolerance -/

/-- Project metadata as used by the ID entry points: `title` and
`project_token`, empty string for a falsy field. -/
structure ProjectMetadata where
  title : String
  project_token : String
deriving DecidableEq, Repr

/-- `error.name === 'AbortError'` on the downloader's error type. -/
def isAbortDLError (e : DLError) : Bool := e = .abortError

/-- The `?token=` query part: appended only for a truthy token. -/
def tokenPart (token : String) : String :=
  if token = "" then "" else "?token=" ++ token

/-- `downloadProjectFromID` of `src/downloader.js` (the revision exporting
it directly): the metadata lookup is wrapped in try/catch and every
failure is swallowed ("This is okay for now"); `throwIfAborted` follows,
so a signalled cancellation still surfaces; the project is then fetched
from the templated URL, with the token only when metadata succeeded, and
the title is applied only when truthy. The transport-and-reconcile tail is
the oracle `fetchProject`. -/
def downloadProjectFromIDOld (id : String)
    (metaResult : Except DLError ProjectMetadata) (aborted : Bool)
    (fetchProject : String → Except DLError DownloadedProject) :
    Except DLError DownloadedProject :=
  let meta : Option ProjectMetadata := metaResult.toOption
  if aborted then .error .abortError
  else
    let token := match meta with | some m => m.project_token | none => ""
    let url := "https://projects.scratch.mit.edu/" ++ id ++ tokenPart token
    match fetchProject url with
    | .error e => .error e
    | .ok project =>
      match meta with
      | some m => if m.title = "" then .ok project else .ok { project with title := m.title }
      | none => .ok project

/-- `downloadFromScratchURLWithToken` of the newer downloader revision
(behind `downloadProjectFromID` there): emits `metadata` progress, then
awaits `getProjectMetadata` with no try/catch, so every metadata failure —
cancellation or not — propagates to the caller. -/
def downloadFromScratchURLWithToken (baseUrl : String)
    (metaResult : Except DLError ProjectMetadata) (aborted : Bool)
    (fetchProject : String → Except DLError DownloadedProject) :
    Except DLError DownloadedProject :=
  match metaResult with
  | .error e => .error e
  | .ok meta =>
    if aborted then .error .abortError
    else
      match fetchProject (baseUrl ++ tokenPart meta.project_token) with
      | .error e => .error e
      | .ok project =>
        if meta.title = "" then .ok project
        else .ok { project with title := meta.title }

/-! # Theorems -/

/-! ## Retry behaviour of the fetch queue -/

/-- The retry loop performs at most `retriesLeft + 1` fetch calls. -/
theorem runFetch_count_le (env : Nat → FetchResponse) :
    ∀ (r i : Nat) (fe : Option AttemptError), (runFetch env r i fe).2 ≤ r + 1 := by
  intro r
  induction r with
  | zero =>
    intro i fe
    rw [runFetch]
    cases classifyAttempt (env i) <;> simp
  | succ n ih =>
    intro i fe
    rw [runFetch]
    cases classifyAttempt (env i) with
    | resolved d => simp
    | abortedStep => simp
    | failed e =>
      simp only
      have := ih (i + 1) (some (fe.getD e))
      omega

/-- When every attempt fails, a loop already carrying a first error performs
all remaining retries and rejects with that first error. -/
theorem runFetch_allFail_some (env : Nat → FetchResponse) :
    ∀ (r i : Nat) (f : AttemptError),
    (∀ j : Nat, ∃ e, classifyAttempt (env (i + j)) = .failed e) →
    runFetch env r i (some f) = (.rejected f, r + 1) := by
  intro r
  induction r with
  | zero =>
    intro i f h
    obtain ⟨e, he⟩ := h 0
    simp only [Nat.add_zero] at he
    rw [runFetch, he]
    simp
  | succ n ih =>
    intro i f h
    obtain ⟨e, he⟩ := h 0
    simp only [Nat.add_zero] at he
    rw [runFetch, he]
    have hshift : ∀ j : Nat, ∃ e2, classifyAttempt (env (i + 1 + j)) = .failed e2 := by
      intro j
      obtain ⟨e2, he2⟩ := h (j + 1)
      refine ⟨e2, ?_⟩
      rwa [show i + (j + 1) = i + 1 + j by omega] at he2
    have hih := ih (i + 1) f hshift
    simp [hih]

/-- C5: for every enqueued asset fetch whose HTTP response has status 404 or
the provider-quirk status 503, the retry loop performs no further attempts
(exactly one fetch call is made, whatever retry budget and recorded first
error it carries) and the task's promise resolves with `null`
(`.settled none`) rather than rejecting. -/
theorem claim_C5 (env : Nat → FetchResponse) (r i : Nat)
    (fe : Option AttemptError) (body : List Nat)
    (h : env i = .status 404 body ∨ env i = .status 503 body) :
    runFetch env r i fe = (.settled none, 1) := by
  have hc : classifyAttempt (env i) = .resolved none := by
    rcases h with h | h <;> rw [h] <;> rfl
  rw [runFetch, hc]

/-- Witness for C5 on a concrete 404 response. -/
theorem claim_C5_witness :
    runFetch (fun _ => FetchResponse.status 404 []) 3 0 none =
      (FetchOutcome.settled none, 1) :=
  claim_C5 _ 3 0 none [] (Or.inl rfl)

/-- Counterexample to C6 as stated: with every attempt failing, the fetch of
a dequeued task is performed 4 times, not at most 3 — `attempts` starts at
0 and the loop retries while `attempts < MAX_ATTEMPTS (= 3)`, so the
initial attempt is followed by 3 retries. -/
theorem claim_C6_counterexample :
    startNextFetchRun (fun _ => .netError 7) =
        (FetchOutcome.rejected (.net 7), 4) ∧
      ¬((startNextFetchRun (fun _ => .netError 7)).2 ≤ 3) := by
  constructor
  · decide
  · decide

/-- C6 (amended): a dequeued task whose attempts all fail with a non-abort
error is fetched at most 4 times in total (one initial attempt plus up to
`MAX_ATTEMPTS = 3` retries) — exactly 4 when every attempt fails — and
after the retries are exhausted the task's promise rejects with the
wrapped `Failed to fetch` error carrying the first failure. -/
theorem claim_C6 :
    (∀ env : Nat → FetchResponse, (startNextFetchRun env).2 ≤ MAX_ATTEMPTS + 1) ∧
    (∀ env : Nat → FetchResponse,
      (∀ j : Nat, ∃ e, classifyAttempt (env j) = .failed e) →
      ∃ e0, classifyAttempt (env 0) = .failed e0 ∧
        startNextFetchRun env = (.rejected e0, MAX_ATTEMPTS + 1)) := by
  constructor
  · intro env
    exact runFetch_count_le env MAX_ATTEMPTS 0 none
  · intro env h
    obtain ⟨e0, he0⟩ := h 0
    refine ⟨e0, he0, ?_⟩
    have hshift : ∀ j : Nat, ∃ e, classifyAttempt (env (1 + j)) = .failed e :=
      fun j => h (1 + j)
    have hrest := runFetch_allFail_some env 2 1 e0 hshift
    unfold startNextFetchRun MAX_ATTEMPTS
    rw [runFetch, he0]
    simp [hrest]

/-- Witness for C6 on a concrete always-failing transport. -/
theorem claim_C6_witness :
    (startNextFetchRun (fun _ => .netError 0)).2 ≤ MAX_ATTEMPTS + 1 ∧
      startNextFetchRun (fun _ => .netError 0) =
        (FetchOutcome.rejected (.net 0), MAX_ATTEMPTS + 1) := by
  refine ⟨claim_C6.1 _, ?_⟩
  obtain ⟨e0, he0, hr⟩ := claim_C6.2 (fun _ => .netError 0)
    (fun _ => ⟨.net 0, rfl⟩)
  have hred : classifyAttempt ((fun _ => FetchResponse.netError 0) 0) =
      AttemptStep.failed (.net 0) := rfl
  rw [hred] at he0
  injection he0 with h
  rw [← h] at hr
  exact hr

/-! ## Queue scheduling -/

/-- A task chosen by `findNextFetch` never has an already-aborted signal. -/
theorem findNextFetch_not_aborted :
    ∀ (l : List FetchTask) (t : FetchTask) (rest : List FetchTask),
    (findNextFetch l).2 = some (t, rest) → t.sigAborted = false := by
  intro l
  induction l with
  | nil =>
    intro t rest h
    simp [findNextFetch] at h
  | cons t0 rest0 ih =>
    intro t rest h
    rw [findNextFetch] at h
    by_cases h0 : t0.sigAborted = true
    · simp only [if_pos h0] at h
      exact ih t rest h
    · simp only [if_neg h0] at h
      simp only [Option.some.injEq, Prod.mk.injEq] at h
      rw [← h.1]
      simpa using h0

/-- `checkStartNextFetch` increments `currentFetches` exactly when it starts
a (never-aborted) task, and leaves it unchanged otherwise. -/
theorem checkStartNextFetch_spec (s : QueueState) :
    (∀ t, (checkStartNextFetch s).2.2 = some t →
        t.sigAborted = false ∧
        (checkStartNextFetch s).1.currentFetches = s.currentFetches + 1) ∧
    ((checkStartNextFetch s).2.2 = none →
        (checkStartNextFetch s).1.currentFetches = s.currentFetches) := by
  unfold checkStartNextFetch
  by_cases hc : s.currentFetches < (MAX_CONCURRENT : Int)
  · simp only [if_pos hc]
    rcases hfd : findNextFetch s.pending with ⟨d, o⟩
    cases o with
    | none => simp
    | some pr =>
      rcases pr with ⟨t0, rest⟩
      constructor
      · intro t ht
        simp only [Option.some.injEq] at ht
        refine ⟨?_, rfl⟩
        rw [← ht]
        exact findNextFetch_not_aborted s.pending t0 rest (by rw [hfd])
      · intro ht
        simp at ht
  · simp only [if_neg hc]
    simp

/-- One scheduler step starts at most one task, that task's signal is live,
and the step's net effect on `currentFetches` is the completion decrement
(for `taskDone`) plus one exactly when a task starts. -/
theorem stepQueue_spec (r : QueueRun) (op : QueueOp) :
    ∃ o1 : Option FetchTask,
      (stepQueue r op).started = r.started ++ o1.toList ∧
      (∀ t, o1 = some t → t.sigAborted = false) ∧
      (stepQueue r op).state.currentFetches =
        (r.state.currentFetches - (if op = .taskDone then 1 else 0)) +
          (if o1.isSome then 1 else 0) := by
  cases op with
  | enqueue tk =>
    rcases hres : checkStartNextFetch { r.state with pending := r.state.pending ++ [tk] }
      with ⟨s1, d1, o1⟩
    have hspec := checkStartNextFetch_spec { r.state with pending := r.state.pending ++ [tk] }
    rw [hres] at hspec
    refine ⟨o1, by simp [stepQueue, hres], fun t1 ht1 => (hspec.1 t1 (by simp [ht1])).1, ?_⟩
    simp only [stepQueue, hres]
    cases o1 with
    | some t1 =>
      have := (hspec.1 t1 rfl).2
      simp at this
      simp [this]
    | none =>
      have := hspec.2 rfl
      simp at this
      simp [this]
  | taskDone =>
    rcases hres : checkStartNextFetch { r.state with currentFetches := r.state.currentFetches - 1 }
      with ⟨s1, d1, o1⟩
    have hspec := checkStartNextFetch_spec { r.state with currentFetches := r.state.currentFetches - 1 }
    rw [hres] at hspec
    refine ⟨o1, by simp [stepQueue, hres], fun t1 ht1 => (hspec.1 t1 (by simp [ht1])).1, ?_⟩
    simp only [stepQueue, hres]
    cases o1 with
    | some t1 =>
      have := (hspec.1 t1 rfl).2
      simp at this
      simp [this]
    | none =>
      have := hspec.2 rfl
      simp at this
      simp [this]

/-- Invariant of a scheduler run: every started task had a live signal when
dequeued, and `currentFetches` counts exactly the started-but-unfinished
tasks (so discarded tasks never consume a slot). -/
theorem queue_fold_inv :
    ∀ (ops : List QueueOp) (r : QueueRun) (dc : Int),
    (∀ t ∈ r.started, t.sigAborted = false) →
    r.state.currentFetches = (r.started.length : Int) - dc →
    (∀ t ∈ (ops.foldl stepQueue r).started, t.sigAborted = false) ∧
      (ops.foldl stepQueue r).state.currentFetches =
        ((ops.foldl stepQueue r).started.length : Int) - (dc + (countDone ops : Int)) := by
  intro ops
  induction ops with
  | nil =>
    intro r dc h1 h2
    refine ⟨h1, ?_⟩
    simpa [countDone] using h2
  | cons op rest ih =>
    intro r dc h1 h2
    have hcount : (countDone (op :: rest) : Int) =
        (if op = .taskDone then 1 else 0) + (countDone rest : Int) := by
      unfold countDone
      rcases op <;> simp [List.countP_cons] <;> push_cast <;> ring
    obtain ⟨o1, hst, hok, hcur⟩ := stepQueue_spec r op
    have hinv1 : ∀ t ∈ (stepQueue r op).started, t.sigAborted = false := by
      rw [hst]
      intro t ht
      rcases List.mem_append.1 ht with ht | ht
      · exact h1 t ht
      · cases o1 with
        | none => simp at ht
        | some t1 =>
          simp only [Option.toList_some, List.mem_singleton] at ht
          rw [ht]
          exact hok t1 rfl
    have hinv2 : (stepQueue r op).state.currentFetches =
        ((stepQueue r op).started.length : Int) -
          (dc + (if op = .taskDone then 1 else 0)) := by
      rw [hcur, hst, h2]
      cases o1 <;> simp <;> push_cast <;> ring
    have hfinal := ih (stepQueue r op)
      (dc + (if op = .taskDone then 1 else 0)) hinv1 hinv2
    simp only [List.foldl_cons]
    refine ⟨hfinal.1, ?_⟩
    rw [hfinal.2, hcount]
    ring_nf

/-- C10: in every run of the global fetch scheduler, a task whose
cancellation signal is already aborted when it is dequeued is discarded:
it is never among the started tasks (so no network request is started for
it, and — since a task's promise is settled only inside `startNextFetch`,
which runs exactly for started tasks — its promise is never resolved and
never rejected), and `currentFetches` always equals started minus
completed tasks, so a discarded task consumes no concurrency slot. -/
theorem claim_C10 (ops : List QueueOp) :
    (∀ t ∈ (runQueue ops).started, t.sigAborted = false) ∧
      (runQueue ops).state.currentFetches =
        ((runQueue ops).started.length : Int) - (countDone ops : Int) := by
  have h := queue_fold_inv ops initialQueueRun 0
    (by intro t ht; simp [initialQueueRun] at ht)
    (by simp [initialQueueRun])
  refine ⟨h.1, ?_⟩
  rw [runQueue] at *
  rw [h.2]
  ring_nf

/-- Witness for C10 on a concrete run: an already-aborted task is enqueued
and discarded, a live one is enqueued and started. -/
theorem claim_C10_witness :
    (FetchTask.mk 1 false).sigAborted = false ∧
      (runQueue [.enqueue ⟨0, true⟩, .enqueue ⟨1, false⟩]).state.currentFetches =
        ((runQueue [.enqueue ⟨0, true⟩, .enqueue ⟨1, false⟩]).started.length : Int) -
          (countDone [.enqueue ⟨0, true⟩, .enqueue ⟨1, false⟩] : Int) :=
  ⟨(claim_C10 [.enqueue ⟨0, true⟩, .enqueue ⟨1, false⟩]).1 ⟨1, false⟩ (by decide),
   (claim_C10 [.enqueue ⟨0, true⟩, .enqueue ⟨1, false⟩]).2⟩

/-! ## Progress aggregator -/

/-- C9: when a `fetched` (task-finished) call makes `loadedAssets` equal
`totalAssets`, the `onProgress('assets', loaded, total)` emission happens
inside that very call (the event is appended by the call and the pending
timeout is cleared, so nothing is left to a scheduled tick), the
aggregator marks itself done; and once done, every further `fetching` or
`fetched` call raises an error. -/
theorem claim_C9 :
    (∀ (o : ProgressOptions) (s : AssetProgressState),
      o.aborted = false → o.hasOnProgress = true → s.isDone = false →
      s.totalAssets = s.loadedAssets + 1 →
      progressFetched o s = .ok
        { totalAssets := s.totalAssets
          loadedAssets := s.totalAssets
          timeoutScheduled := false
          isDone := true
          events := s.events ++ [⟨s.totalAssets, s.totalAssets⟩] }) ∧
    (∀ (o : ProgressOptions) (s : AssetProgressState), s.isDone = true →
      (∃ e, progressFetching o s = .error e) ∧
      (∃ e, progressFetched o s = .error e)) := by
  constructor
  · intro o s hab hcb hdone htot
    unfold progressFetched emitProgressUpdate emitEvent
    simp [hab, hcb, hdone, htot]
  · intro o s hdone
    constructor
    · cases hab : o.aborted
      · exact ⟨.usedAfterCompletion, by unfold progressFetching emitProgressUpdate; simp [hab, hdone]⟩
      · exact ⟨.abortError, by unfold progressFetching emitProgressUpdate; simp [hab]⟩
    · cases hab : o.aborted
      · exact ⟨.usedAfterCompletion, by unfold progressFetched emitProgressUpdate; simp [hab, hdone]⟩
      · exact ⟨.abortError, by unfold progressFetched emitProgressUpdate; simp [hab]⟩

/-- Witness for C9: a final `fetched` call on concrete state (1 outstanding
task, a tick pending) emits immediately and completes; a later `fetching`
call on the completed state errors. -/
theorem claim_C9_witness :
    progressFetched ⟨false, true⟩ ⟨1, 0, true, false, []⟩ =
        .ok ⟨1, 1, false, true, [⟨1, 1⟩]⟩ ∧
      (∃ e, progressFetching ⟨false, true⟩ ⟨1, 1, false, true, [⟨1, 1⟩]⟩ = .error e) :=
  ⟨claim_C9.1 ⟨false, true⟩ ⟨1, 0, true, false, []⟩ rfl rfl rfl rfl,
   (claim_C9.2 ⟨false, true⟩ ⟨1, 1, false, true, [⟨1, 1⟩]⟩ rfl).1⟩

/-! ## Legacy passthrough -/

/-- A buffer carrying the `ScratchV` magic does not look like JSON text. -/
theorem scratch1_not_json (bytes : List Nat)
    (h : isScratch1Project bytes = true) : isProbablyJSON bytes = false := by
  cases bytes with
  | nil => simp [isScratch1Project, SCRATCH_MAGIC] at h
  | cons b rest =>
    unfold isScratch1Project SCRATCH_MAGIC at h
    simp only [List.take_succ_cons, decide_eq_true_eq, List.cons.injEq] at h
    unfold isProbablyJSON
    simp [h.1]

/-- C7: a buffer whose first 8 bytes are the `ScratchV` magic is returned
unchanged as the output archive with type `sb` and empty title, for every
choice of `date`, `compress` and `processJSON` (they are never consulted:
the conclusion does not depend on them). -/
theorem claim_C7 (buf : BufferInput) (env : String → Option (List Nat))
    (o : DLOptions) (hab : o.aborted = false)
    (h : isScratch1Project buf.bytes = true) :
    downloadProjectFromBufferM buf env o =
      .ok { title := "", type := .sb, arrayBuffer := .original buf.bytes } := by
  unfold downloadProjectFromBufferM
  rw [hab, scratch1_not_json buf.bytes h, h]
  simp

/-- Witness for C7: a concrete magic-prefixed buffer with options that set a
custom date, disable compression and supply a `processJSON` is returned
untouched. -/
theorem claim_C7_witness :
    downloadProjectFromBufferM ⟨SCRATCH_MAGIC ++ [1], none, none⟩ (fun _ => none)
        ⟨false, some 5, false, some (fun _ _ => some (.unknownData 0)), true⟩ =
      .ok { title := "", type := .sb, arrayBuffer := .original (SCRATCH_MAGIC ++ [1]) } :=
  claim_C7 ⟨SCRATCH_MAGIC ++ [1], none, none⟩ (fun _ => none)
    ⟨false, some 5, false, some (fun _ _ => some (.unknownData 0)), true⟩ rfl (by decide)

/-! ## Metadata failure tolerance -/

/-- Counterexample to C8 as stated: in the newer revision's
`downloadFromScratchURLWithToken` (behind `downloadProjectFromID`), a
metadata lookup failing with the non-cancellation
`CanNotAccessProjectError` propagates to the caller instead of the
download proceeding without a title and token. -/
theorem claim_C8_counterexample :
    downloadFromScratchURLWithToken "https://projects.scratch.mit.edu/1"
        (.error .cannotAccessProject) false
        (fun _ => .ok { title := "", type := .sb3, arrayBuffer := .original [] }) =
      .error .cannotAccessProject ∧
    ¬ isAbortDLError .cannotAccessProject = true := by
  constructor
  · rfl
  · decide

/-- C8 (amended): in `downloader.js`'s `downloadProjectFromID` every
metadata-lookup failure is swallowed and the download proceeds with the
plain (token-free) project URL and no title change, cancellation
surfacing through the signal check after the lookup; in the newer
revision's `downloadFromScratchURLWithToken` every metadata failure —
non-cancellation ones included — propagates to the caller. -/
theorem claim_C8 :
    (∀ (id : String) (e : DLError)
       (fetchProject : String → Except DLError DownloadedProject),
      downloadProjectFromIDOld id (.error e) false fetchProject =
        fetchProject ("https://projects.scratch.mit.edu/" ++ id ++ tokenPart "")) ∧
    (∀ (id : String)
       (metaResult : Except DLError ProjectMetadata)
       (fetchProject : String → Except DLError DownloadedProject),
      downloadProjectFromIDOld id metaResult true fetchProject = .error .abortError) ∧
    (∀ (baseUrl : String) (e : DLError) (aborted : Bool)
       (fetchProject : String → Except DLError DownloadedProject),
      downloadFromScratchURLWithToken baseUrl (.error e) aborted fetchProject =
        .error e) := by
  refine ⟨?_, ?_, ?_⟩
  · intro id e fetchProject
    unfold downloadProjectFromIDOld
    simp only [Except.toOption]
    cases fetchProject ("https://projects.scratch.mit.edu/" ++ id ++ tokenPart "") <;> simp
  · intro id metaResult fetchProject
    unfold downloadProjectFromIDOld
    simp
  · intro baseUrl e aborted fetchProject
    rfl

/-! ## Archive helper lemmas -/

/-- `zipHas` agrees with membership in the name list. -/
theorem zipHas_iff (z : Zip) (p : String) : zipHas z p = true ↔ p ∈ zipPaths z := by
  unfold zipHas zipPaths
  simp

/-- The member names after `zip.file(p, d)`: unchanged when the name was
taken, extended by `p` when it was not. -/
theorem zipPaths_zipSet (z : Zip) (p : String) (d : FileData) :
    zipPaths (zipSet z p d) = if zipHas z p then zipPaths z else zipPaths z ++ [p] := by
  unfold zipSet
  by_cases hp : zipHas z p
  · simp only [if_pos hp]
    unfold zipPaths
    simp only [List.map_map]
    apply List.map_congr_left
    intro e _
    by_cases hep : e.path = p
    · simp only [Function.comp_apply, if_pos hep]
      exact hep.symm
    · simp [hep]
  · simp [if_neg hp, zipPaths]

/-- `zip.file(p, d)` keeps every existing member name. -/
theorem zipPaths_zipSet_mem (z : Zip) (p : String) (d : FileData) (q : String)
    (h : q ∈ zipPaths z) : q ∈ zipPaths (zipSet z p d) := by
  rw [zipPaths_zipSet]
  by_cases hp : zipHas z p
  · simp [hp, h]
  · simp [hp, h]

/-- `zip.file(p, d)` makes `p` a member name. -/
theorem zipPaths_zipSet_self (z : Zip) (p : String) (d : FileData) :
    p ∈ zipPaths (zipSet z p d) := by
  rw [zipPaths_zipSet]
  by_cases hp : zipHas z p
  · simp only [if_pos hp]
    exact (zipHas_iff z p).1 hp
  · simp [hp]

/-- Members after `zip.file(p, d)` are old members or the written one. -/
theorem mem_zipSet_files (z : Zip) (p : String) (d : FileData) (e : ZipEntry)
    (h : e ∈ (zipSet z p d).files) : e ∈ z.files ∨ e = ⟨p, d⟩ := by
  unfold zipSet at h
  by_cases hp : zipHas z p
  · simp only [if_pos hp] at h
    simp only [List.mem_map] at h
    obtain ⟨e0, he0, heq⟩ := h
    by_cases hep : e0.path = p
    · simp only [if_pos hep] at heq
      right
      exact heq.symm
    · simp only [if_neg hep] at heq
      left
      rw [← heq]
      exact he0
  · simp only [if_neg hp] at h
    simp only [List.mem_append, List.mem_singleton] at h
    exact h

/-- `zip.file(p, d)` preserves the no-duplicate-names invariant. -/
theorem zipPaths_nodup_zipSet (z : Zip) (p : String) (d : FileData)
    (h : (zipPaths z).Nodup) : (zipPaths (zipSet z p d)).Nodup := by
  rw [zipPaths_zipSet]
  by_cases hp : zipHas z p
  · simp [hp, h]
  · have hnp : p ∉ zipPaths z := by
      intro hmem
      exact hp ((zipHas_iff z p).2 hmem)
    simp only [if_neg hp]
    rw [List.nodup_append]
    refine ⟨h, List.nodup_singleton p, ?_⟩
    intro a ha hb
    rw [List.mem_singleton] at hb
    rw [hb] at ha
    exact hnp ha

/-- Unfolding `addFetchedFiles` over a successful head fetch. -/
theorem addFetchedFiles_cons_some (z : Zip) (p : String) (d : List Nat)
    (rest : List (String × Option (List Nat))) :
    addFetchedFiles z ((p, some d) :: rest) =
      addFetchedFiles (zipSet z p (.bytesFile d)) rest := rfl

/-- Unfolding `addFetchedFiles` over an absent head fetch. -/
theorem addFetchedFiles_cons_none (z : Zip) (p : String)
    (rest : List (String × Option (List Nat))) :
    addFetchedFiles z ((p, none) :: rest) = addFetchedFiles z rest := rfl

/-- Names in the assembled archive come from the base archive or from a
successfully fetched pair. -/
theorem zipPaths_addFetchedFiles (fs : List (String × Option (List Nat))) :
    ∀ (z : Zip) (q : String), q ∈ zipPaths (addFetchedFiles z fs) →
      q ∈ zipPaths z ∨ ∃ d, (q, some d) ∈ fs := by
  induction fs with
  | nil =>
    intro z q h
    exact Or.inl h
  | cons pr rest ih =>
    intro z q h
    rcases pr with ⟨p, od⟩
    cases od with
    | none =>
      rw [addFetchedFiles_cons_none] at h
      rcases ih z q h with h2 | ⟨d, hd⟩
      · exact Or.inl h2
      · exact Or.inr ⟨d, List.mem_cons_of_mem _ hd⟩
    | some dd =>
      rw [addFetchedFiles_cons_some] at h
      rcases ih (zipSet z p (.bytesFile dd)) q h with h2 | ⟨d, hd⟩
      · rw [zipPaths_zipSet] at h2
        by_cases hp : zipHas z p
        · rw [if_pos hp] at h2
          exact Or.inl h2
        · rw [if_neg hp] at h2
          rcases List.mem_append.1 h2 with h3 | h3
          · exact Or.inl h3
          · rcases List.mem_singleton.1 h3 with h4
            exact Or.inr ⟨dd, by rw [h4]; exact List.mem_cons_self _ _⟩
      · exact Or.inr ⟨d, List.mem_cons_of_mem _ hd⟩

/-- Membership in the name list is preserved by adding fetched files. -/
theorem zipPaths_addFetchedFiles_mono (fs : List (String × Option (List Nat))) :
    ∀ (z : Zip) (q : String), q ∈ zipPaths z → q ∈ zipPaths (addFetchedFiles z fs) := by
  induction fs with
  | nil =>
    intro z q h
    exact h
  | cons pr rest ih =>
    intro z q h
    rcases pr with ⟨p, od⟩
    cases od with
    | none =>
      rw [addFetchedFiles_cons_none]
      exact ih z q h
    | some dd =>
      rw [addFetchedFiles_cons_some]
      exact ih (zipSet z p (.bytesFile dd)) q (zipPaths_zipSet_mem z p _ q h)

/-- A successfully fetched pair becomes a member name. -/
theorem zipPaths_addFetchedFiles_of_mem (fs : List (String × Option (List Nat))) :
    ∀ (z : Zip) (p : String) (d : List Nat), (p, some d) ∈ fs →
      p ∈ zipPaths (addFetchedFiles z fs) := by
  induction fs with
  | nil =>
    intro z p d h
    simp at h
  | cons pr rest ih =>
    intro z p d h
    rcases pr with ⟨p0, od⟩
    rcases List.mem_cons.1 h with heq | hmem
    · cases heq
      rw [addFetchedFiles_cons_some]
      exact zipPaths_addFetchedFiles_mono rest _ p (zipPaths_zipSet_self z p _)
    · cases od with
      | none =>
        rw [addFetchedFiles_cons_none]
        exact ih z p d hmem
      | some dd =>
        rw [addFetchedFiles_cons_some]
        exact ih _ p d hmem

/-- Members of the assembled archive are base members or fetched blobs. -/
theorem mem_addFetchedFiles_files (fs : List (String × Option (List Nat))) :
    ∀ (z : Zip) (e : ZipEntry), e ∈ (addFetchedFiles z fs).files →
      e ∈ z.files ∨ ∃ p dd, (p, some dd) ∈ fs ∧ e = ⟨p, .bytesFile dd⟩ := by
  induction fs with
  | nil =>
    intro z e h
    exact Or.inl h
  | cons pr rest ih =>
    intro z e h
    rcases pr with ⟨p, od⟩
    cases od with
    | none =>
      rw [addFetchedFiles_cons_none] at h
      rcases ih z e h with h2 | ⟨p2, dd2, hm, he⟩
      · exact Or.inl h2
      · exact Or.inr ⟨p2, dd2, List.mem_cons_of_mem _ hm, he⟩
    | some dd =>
      rw [addFetchedFiles_cons_some] at h
      rcases ih (zipSet z p (.bytesFile dd)) e h with h2 | ⟨p2, dd2, hm, he⟩
      · rcases mem_zipSet_files z p _ e h2 with h3 | h3
        · exact Or.inl h3
        · exact Or.inr ⟨p, dd, List.mem_cons_self _ _, h3⟩
      · exact Or.inr ⟨p2, dd2, List.mem_cons_of_mem _ hm, he⟩

/-- On a fresh archive, `storeProjectJSON` produces exactly one member,
`project.json`, holding a description. -/
theorem storeProjectJSON_emptyZip (t : ProjectType) (pd : ProjectData) (o : DLOptions) :
    ∃ pdX, (storeProjectJSON emptyZip t pd o).1.files = [⟨"project.json", .jsonFile pdX⟩] := by
  unfold storeProjectJSON
  cases hpj : o.processJSON with
  | none =>
    refine ⟨pd, ?_⟩
    simp [zipHas, emptyZip, zipSet]
  | some f =>
    cases hf : f t pd with
    | none =>
      refine ⟨pd, ?_⟩
      simp [hf, zipHas, emptyZip, zipSet]
    | some nd =>
      refine ⟨nd, ?_⟩
      simp [hf, zipHas, emptyZip, zipSet]

/-- Every started fetch also finishes, absent assets included: the fetch
traces of the reconcilers have as many `fetched` as `fetching` events. -/
theorem trace_counts (ks : List String) :
    countFetched (ks.flatMap (fun k => [.fetchingEv k, .fetchedEv k])) =
      countFetching (ks.flatMap (fun k => [.fetchingEv k, .fetchedEv k])) := by
  induction ks with
  | nil => rfl
  | cons k rest ih =>
    unfold countFetched countFetching at ih ⊢
    simp [List.countP_cons, ih]

/-- C2: a description referencing an asset the transport reports absent
(`env k = none`) still downloads without error; the archive contains the
`project.json` member; for v3 the absent key is not a member at all, and
for v2 every binary member's bytes come from a successfully fetched asset
(so the absent asset has no binary member); and the assets progress trace
finishes every fetch it starts (`loaded = total`). -/
theorem claim_C2 :
    (∀ (p3 : SB3Project) (env : String → Option (List Nat)) (o : DLOptions)
       (k : String), o.aborted = false → env k = none → k ≠ "project.json" →
      downloadProjectFromJSONM (.sb3Data p3) env o =
          .ok { title := "", type := .sb3
                arrayBuffer := .generated (downloadScratch3Zip p3 emptyZip env o).zip.files
                  (jsDate o) o.compress } ∧
        "project.json" ∈ zipPaths (downloadScratch3Zip p3 emptyZip env o).zip ∧
        k ∉ zipPaths (downloadScratch3Zip p3 emptyZip env o).zip ∧
        countFetched (downloadScratch3Zip p3 emptyZip env o).trace =
          countFetching (downloadScratch3Zip p3 emptyZip env o).trace) ∧
    (∀ (p2 : SB2Project) (env : String → Option (List Nat)) (o : DLOptions),
      o.aborted = false →
      downloadProjectFromJSONM (.sb2Data p2) env o =
          .ok { title := "", type := .sb2
                arrayBuffer := .generated (downloadScratch2Zip p2 emptyZip env o).zip.files
                  (jsDate o) o.compress } ∧
        "project.json" ∈ zipPaths (downloadScratch2Zip p2 emptyZip env o).zip ∧
        (∀ e ∈ (downloadScratch2Zip p2 emptyZip env o).zip.files, ∀ d : List Nat,
          e.data = .bytesFile d → ∃ k2, env k2 = some d) ∧
        countFetched (downloadScratch2Zip p2 emptyZip env o).trace =
          countFetching (downloadScratch2Zip p2 emptyZip env o).trace) := by
  constructor
  · intro p3 env o k hab henv hk
    have hz : (downloadScratch3Zip p3 emptyZip env o).zip =
        addFetchedFiles (storeProjectJSON emptyZip .sb3 (.sb3Data p3) o).1
          ((prepareAssets emptyZip (sb3Assets p3)).map (fun k2 => (k2, env k2))) := rfl
    obtain ⟨pdX, hfiles⟩ := storeProjectJSON_emptyZip .sb3 (.sb3Data p3) o
    have hstorepaths : zipPaths (storeProjectJSON emptyZip .sb3 (.sb3Data p3) o).1 =
        ["project.json"] := by
      unfold zipPaths
      rw [hfiles]
      rfl
    refine ⟨?_, ?_, ?_, ?_⟩
    · unfold downloadProjectFromJSONM
      rw [hab]
      rfl
    · rw [hz]
      apply zipPaths_addFetchedFiles_mono
      rw [hstorepaths]
      exact List.mem_singleton.2 rfl
    · rw [hz]
      intro hmem
      rcases zipPaths_addFetchedFiles _ _ _ hmem with h2 | ⟨d, hd⟩
      · rw [hstorepaths] at h2
        exact hk (List.mem_singleton.1 h2)
      · rcases List.mem_map.1 hd with ⟨k2, _, heq⟩
        have hk2 : k2 = k := congrArg Prod.fst heq
        have henv2 : env k2 = some d := congrArg Prod.snd heq
        rw [hk2, henv] at henv2
        exact Option.noConfusion henv2
    · exact trace_counts _
  · intro p2 env o hab
    have hz : (downloadScratch2Zip p2 emptyZip env o).zip =
        addFetchedFiles
          (storeProjectJSON emptyZip .sb2
            (.sb2Data (rewriteSB2Project p2
              (downloadAssetsV2 emptyZip
                (flat ((spritesOf p2).map (fun s => s.costumes)))
                (flat ((spritesOf p2).map (fun s => s.sounds)))).costumes
              (downloadAssetsV2 emptyZip
                (flat ((spritesOf p2).map (fun s => s.costumes)))
                (flat ((spritesOf p2).map (fun s => s.sounds)))).sounds)) o).1
          ((downloadAssetsV2 emptyZip
              (flat ((spritesOf p2).map (fun s => s.costumes)))
              (flat ((spritesOf p2).map (fun s => s.sounds)))).needToFetch.map
            (fun k => (pathFor ((mapGet (downloadAssetsV2 emptyZip
                (flat ((spritesOf p2).map (fun s => s.costumes)))
                (flat ((spritesOf p2).map (fun s => s.sounds)))).map k).getD 0)
              (getExtension k), env k))) := rfl
    obtain ⟨pdX, hfiles⟩ := storeProjectJSON_emptyZip .sb2
      (.sb2Data (rewriteSB2Project p2
        (downloadAssetsV2 emptyZip
          (flat ((spritesOf p2).map (fun s => s.costumes)))
          (flat ((spritesOf p2).map (fun s => s.sounds)))).costumes
        (downloadAssetsV2 emptyZip
          (flat ((spritesOf p2).map (fun s => s.costumes)))
          (flat ((spritesOf p2).map (fun s => s.sounds)))).sounds)) o
    have hstorepaths : zipPaths (storeProjectJSON emptyZip .sb2
        (.sb2Data (rewriteSB2Project p2
          (downloadAssetsV2 emptyZip
            (flat ((spritesOf p2).map (fun s => s.costumes)))
            (flat ((spritesOf p2).map (fun s => s.sounds)))).costumes
          (downloadAssetsV2 emptyZip
            (flat ((spritesOf p2).map (fun s => s.costumes)))
            (flat ((spritesOf p2).map (fun s => s.sounds)))).sounds)) o).1 =
        ["project.json"] := by
      unfold zipPaths
      rw [hfiles]
      rfl
    refine ⟨?_, ?_, ?_, ?_⟩
    · unfold downloadProjectFromJSONM
      rw [hab]
      rfl
    · rw [hz]
      apply zipPaths_addFetchedFiles_mono
      rw [hstorepaths]
      exact List.mem_singleton.2 rfl
    · rw [hz]
      intro e he d hd
      rcases mem_addFetchedFiles_files _ _ e he with h2 | ⟨p, dd, hm, heq⟩
      · rw [hfiles] at h2
        rcases List.mem_singleton.1 h2 with h3
        rw [h3] at hd
        exact FileData.noConfusion hd
      · rcases List.mem_map.1 hm with ⟨k2, _, heq2⟩
        refine ⟨k2, ?_⟩
        have henv2 : env k2 = some dd := congrArg Prod.snd heq2
        rw [heq] at hd
        have hdd : dd = d := by
          injection hd
        rw [← hdd]
        exact henv2
    · exact trace_counts _

/-- Witness for C2: a one-costume v3 project whose only asset is reported
absent, and a v2 project with one sound, also absent. -/
theorem claim_C2_witness :
    (downloadProjectFromJSONM (.sb3Data ⟨[⟨[⟨"m", "svg", ""⟩], []⟩]⟩) (fun _ => none)
        ⟨false, none, true, none, true⟩ =
      .ok { title := "", type := .sb3
            arrayBuffer := .generated
              (downloadScratch3Zip ⟨[⟨[⟨"m", "svg", ""⟩], []⟩]⟩ emptyZip (fun _ => none)
                ⟨false, none, true, none, true⟩).zip.files
              (jsDate ⟨false, none, true, none, true⟩) true }) ∧
      "project.json" ∈ zipPaths (downloadScratch3Zip ⟨[⟨[⟨"m", "svg", ""⟩], []⟩]⟩
        emptyZip (fun _ => none) ⟨false, none, true, none, true⟩).zip ∧
      "m.svg" ∉ zipPaths (downloadScratch3Zip ⟨[⟨[⟨"m", "svg", ""⟩], []⟩]⟩
        emptyZip (fun _ => none) ⟨false, none, true, none, true⟩).zip := by
  have h := claim_C2.1 ⟨[⟨[⟨"m", "svg", ""⟩], []⟩]⟩ (fun _ => none)
    ⟨false, none, true, none, true⟩ "m.svg" rfl rfl (by decide)
  exact ⟨h.1, h.2.1, h.2.2.1⟩

/-! ## md5extToId map lemmas -/

/-- A key reported present has a value. -/
theorem mapGet_isSome_of_has :
    ∀ (m : List (String × Int)) (k : String), mapHas m k = true →
      ∃ w, mapGet m k = some w := by
  intro m k h
  induction m with
  | nil => simp [mapHas] at h
  | cons e rest ih =>
    by_cases he : e.1 = k
    · exact ⟨e.2, by simp [mapGet, List.find?_cons, he]⟩
    · have h2 : mapHas rest k = true := by
        simpa [mapHas, he] using h
      obtain ⟨w, hw⟩ := ih h2
      exact ⟨w, by simpa [mapGet, List.find?_cons, he] using hw⟩

/-- An absent key has no value. -/
theorem mapGet_eq_none_of_not_has :
    ∀ (m : List (String × Int)) (k : String), mapHas m k = false →
      mapGet m k = none := by
  intro m k h
  induction m with
  | nil => rfl
  | cons e rest ih =>
    have he : ¬(e.1 = k) := by
      intro hek
      simp [mapHas, hek] at h
    have h2 : mapHas rest k = false := by
      rcases hm : mapHas rest k
      · rfl
      · exfalso
        rw [mapHas] at h
        simp only [List.any_cons] at h
        rw [mapHas] at hm
        simp [hm] at h
    simpa [mapGet, List.find?_cons, he] using ih h2

/-- `Map.set` binds the written key to the written value. -/
theorem mapGet_mapSet_self (m : List (String × Int)) (k : String) (v : Int) :
    mapGet (mapSet m k v) k = some v := by
  unfold mapSet
  by_cases h : mapHas m k
  · simp only [if_pos h]
    induction m with
    | nil => simp [mapHas] at h
    | cons e rest ih =>
      by_cases he : e.1 = k
      · simp [mapGet, List.find?_cons, he]
      · have h2 : mapHas rest k = true := by
          simpa [mapHas, he] using h
        simpa [mapGet, List.find?_cons, he] using ih h2
  · simp only [if_neg h]
    have hn := mapGet_eq_none_of_not_has m k (by simpa using h)
    unfold mapGet at hn ⊢
    rcases hf : m.find? (fun e => e.1 = k) with _ | e
    · rw [List.find?_append, hf]
      simp [List.find?_cons]
    · rw [hf] at hn
      simp at hn

/-- `Map.set` never removes an existing binding of another key, and keeps
the bindings of every key it does not overwrite. -/
theorem mapGet_mapSet_preserve (m : List (String × Int)) (k k2 : String)
    (v w : Int) (hne : mapHas m k = false) (h : mapGet m k2 = some w) :
    mapGet (mapSet m k v) k2 = some w := by
  unfold mapSet
  rw [if_neg (by simp [hne])]
  unfold mapGet at h ⊢
  rcases hf : m.find? (fun e => e.1 = k2) with _ | e
  · rw [hf] at h
    simp at h
  · rw [List.find?_append, hf]
    rw [hf] at h
    exact h

/-- Presence of keys is monotone under `Map.set`. -/
theorem mapHas_mapSet_mono (m : List (String × Int)) (k k2 : String) (v : Int)
    (h : mapHas m k2 = true) : mapHas (mapSet m k v) k2 = true := by
  unfold mapSet
  by_cases hk : mapHas m k
  · simp only [if_pos hk]
    unfold mapHas at h ⊢
    simp only [List.any_eq_true, decide_eq_true_eq] at h ⊢
    obtain ⟨e, he, hek⟩ := h
    by_cases hekk : e.1 = k
    · exact ⟨(k, v), List.mem_map.2 ⟨e, he, by simp [hekk]⟩, by rw [← hek, hekk]⟩
    · exact ⟨e, List.mem_map.2 ⟨e, he, by simp [hekk]⟩, hek⟩
  · simp only [if_neg hk]
    unfold mapHas at h ⊢
    simp only [List.any_eq_true, decide_eq_true_eq] at h ⊢
    obtain ⟨e, he, hek⟩ := h
    exact ⟨e, List.mem_append_left _ he, hek⟩

/-- The written key is present after `Map.set`. -/
theorem mapHas_mapSet_self (m : List (String × Int)) (k : String) (v : Int) :
    mapHas (mapSet m k v) k = true := by
  have := mapGet_mapSet_self m k v
  rcases hh : mapHas (mapSet m k v) k
  · rw [mapGet_eq_none_of_not_has _ _ hh] at this
    exact Option.noConfusion this
  · rfl

/-! ## Assignment-pass lemmas -/

/-- Behaviour of `assignCostumeId`: the key ends up bound to the returned
id, existing bindings and key presence are preserved, and the fetch list
grows by the key exactly when it was unseen. -/
theorem assignCostumeId_spec (s : V2AssignState) (k : String) :
    mapGet (assignCostumeId s k).2.map k = some (assignCostumeId s k).1 ∧
    (∀ k2 w, mapGet s.map k2 = some w → mapGet (assignCostumeId s k).2.map k2 = some w) ∧
    (∀ k2, mapHas s.map k2 = true → mapHas (assignCostumeId s k).2.map k2 = true) ∧
    ((assignCostumeId s k).2.needToFetch = s.needToFetch ∨
      ((assignCostumeId s k).2.needToFetch = s.needToFetch ++ [k] ∧ mapHas s.map k = false)) ∧
    mapHas (assignCostumeId s k).2.map k = true := by
  unfold assignCostumeId
  by_cases h : mapHas s.map k = true
  · simp only [if_pos h]
    obtain ⟨w, hw⟩ := mapGet_isSome_of_has s.map k h
    refine ⟨?_, fun k2 w2 hw2 => hw2, fun k2 h2 => h2, Or.inl trivial, h⟩
    rw [hw]
    simp
  · simp only [if_neg h]
    have hfalse : mapHas s.map k = false := by simpa using h
    refine ⟨?_, ?_, ?_, Or.inr ⟨trivial, hfalse⟩, ?_⟩
    · exact mapGet_mapSet_self s.map k s.costumeAcc
    · intro k2 w hw
      exact mapGet_mapSet_preserve s.map k k2 _ w hfalse hw
    · intro k2 h2
      exact mapHas_mapSet_mono s.map k k2 _ h2
    · exact mapHas_mapSet_self s.map k s.costumeAcc

/-- Behaviour of `assignSoundId`, mirror of `assignCostumeId_spec`. -/
theorem assignSoundId_spec (s : V2AssignState) (k : String) :
    mapGet (assignSoundId s k).2.map k = some (assignSoundId s k).1 ∧
    (∀ k2 w, mapGet s.map k2 = some w → mapGet (assignSoundId s k).2.map k2 = some w) ∧
    (∀ k2, mapHas s.map k2 = true → mapHas (assignSoundId s k).2.map k2 = true) ∧
    ((assignSoundId s k).2.needToFetch = s.needToFetch ∨
      ((assignSoundId s k).2.needToFetch = s.needToFetch ++ [k] ∧ mapHas s.map k = false)) ∧
    mapHas (assignSoundId s k).2.map k = true := by
  unfold assignSoundId
  by_cases h : mapHas s.map k = true
  · simp only [if_pos h]
    obtain ⟨w, hw⟩ := mapGet_isSome_of_has s.map k h
    refine ⟨?_, fun k2 w2 hw2 => hw2, fun k2 h2 => h2, Or.inl trivial, h⟩
    rw [hw]
    simp
  · simp only [if_neg h]
    have hfalse : mapHas s.map k = false := by simpa using h
    refine ⟨?_, ?_, ?_, Or.inr ⟨trivial, hfalse⟩, ?_⟩
    · exact mapGet_mapSet_self s.map k s.soundAcc
    · intro k2 w hw
      exact mapGet_mapSet_preserve s.map k k2 _ w hfalse hw
    · intro k2 h2
      exact mapHas_mapSet_mono s.map k k2 _ h2
    · exact mapHas_mapSet_self s.map k s.soundAcc

/-- The fetch-list invariant (no duplicates and every queued key already
bound) is preserved by `assignCostumeId`. -/
theorem assignCostumeId_nf (s : V2AssignState) (k : String)
    (h1 : s.needToFetch.Nodup)
    (h2 : ∀ k2 ∈ s.needToFetch, mapHas s.map k2 = true) :
    (assignCostumeId s k).2.needToFetch.Nodup ∧
      ∀ k2 ∈ (assignCostumeId s k).2.needToFetch,
        mapHas (assignCostumeId s k).2.map k2 = true := by
  obtain ⟨_, _, hmono, hnf, hself⟩ := assignCostumeId_spec s k
  rcases hnf with he | ⟨he, hnew⟩
  · rw [he]
    exact ⟨h1, fun k2 hk2 => hmono k2 (h2 k2 hk2)⟩
  · rw [he]
    constructor
    · rw [List.nodup_append]
      refine ⟨h1, List.nodup_singleton k, ?_⟩
      intro a ha hb
      rw [List.mem_singleton] at hb
      rw [hb] at ha
      rw [h2 k ha] at hnew
      exact Bool.noConfusion hnew
    · intro k2 hk2
      rcases List.mem_append.1 hk2 with hk2 | hk2
      · exact hmono k2 (h2 k2 hk2)
      · rw [List.mem_singleton.1 hk2]
        exact hself

/-- The fetch-list invariant is preserved by `assignSoundId`. -/
theorem assignSoundId_nf (s : V2AssignState) (k : String)
    (h1 : s.needToFetch.Nodup)
    (h2 : ∀ k2 ∈ s.needToFetch, mapHas s.map k2 = true) :
    (assignSoundId s k).2.needToFetch.Nodup ∧
      ∀ k2 ∈ (assignSoundId s k).2.needToFetch,
        mapHas (assignSoundId s k).2.map k2 = true := by
  obtain ⟨_, _, hmono, hnf, hself⟩ := assignSoundId_spec s k
  rcases hnf with he | ⟨he, hnew⟩
  · rw [he]
    exact ⟨h1, fun k2 hk2 => hmono k2 (h2 k2 hk2)⟩
  · rw [he]
    constructor
    · rw [List.nodup_append]
      refine ⟨h1, List.nodup_singleton k, ?_⟩
      intro a ha hb
      rw [List.mem_singleton] at hb
      rw [hb] at ha
      rw [h2 k ha] at hnew
      exact Bool.noConfusion hnew
    · intro k2 hk2
      rcases List.mem_append.1 hk2 with hk2 | hk2
      · exact hmono k2 (h2 k2 hk2)
      · rw [List.mem_singleton.1 hk2]
        exact hself

/-- Rewriting one costume binds its md5 keys to its new ids in the state
map, preserves existing bindings and presence, preserves the fetch-list
invariant, and keeps the record's md5 fields. -/
theorem processCostume_spec (s : V2AssignState) (c : SB2Costume) :
    (processCostume s c).1.baseLayerMD5 = c.baseLayerMD5 ∧
    (processCostume s c).1.textLayerMD5 = c.textLayerMD5 ∧
    mapGet (processCostume s c).2.map (processCostume s c).1.baseLayerMD5 =
      some (processCostume s c).1.baseLayerID ∧
    ((processCostume s c).1.textLayerMD5 ≠ "" →
      mapGet (processCostume s c).2.map (processCostume s c).1.textLayerMD5 =
        some (processCostume s c).1.textLayerID) ∧
    (∀ k w, mapGet s.map k = some w → mapGet (processCostume s c).2.map k = some w) ∧
    (∀ k, mapHas s.map k = true → mapHas (processCostume s c).2.map k = true) ∧
    (s.needToFetch.Nodup → (∀ k2 ∈ s.needToFetch, mapHas s.map k2 = true) →
      (processCostume s c).2.needToFetch.Nodup ∧
        ∀ k2 ∈ (processCostume s c).2.needToFetch,
          mapHas (processCostume s c).2.map k2 = true) := by
  unfold processCostume
  obtain ⟨hbget, hbpres, hbmono, _, _⟩ := assignCostumeId_spec s c.baseLayerMD5
  by_cases ht : c.textLayerMD5 ≠ ""
  · simp only [if_pos ht]
    obtain ⟨htget, htpres, htmono, _, _⟩ :=
      assignCostumeId_spec (assignCostumeId s c.baseLayerMD5).2 c.textLayerMD5
    refine ⟨trivial, trivial, ?_, ?_, ?_, ?_, ?_⟩
    · exact htpres _ _ hbget
    · intro _
      exact htget
    · intro k w hw
      exact htpres k w (hbpres k w hw)
    · intro k hk
      exact htmono k (hbmono k hk)
    · intro h1 h2
      obtain ⟨h3, h4⟩ := assignCostumeId_nf s c.baseLayerMD5 h1 h2
      exact assignCostumeId_nf _ c.textLayerMD5 h3 h4
  · simp only [if_neg ht]
    refine ⟨trivial, trivial, hbget, ?_, hbpres, hbmono, ?_⟩
    · intro hcontra
      exact absurd hcontra ht
    · intro h1 h2
      exact assignCostumeId_nf s c.baseLayerMD5 h1 h2

/-- Rewriting one sound binds its md5 key, preserves bindings, presence and
the fetch-list invariant, and keeps the record's md5 field. -/
theorem processSound_spec (s : V2AssignState) (snd : SB2Sound) :
    (processSound s snd).1.md5 = snd.md5 ∧
    mapGet (processSound s snd).2.map (processSound s snd).1.md5 =
      some (processSound s snd).1.soundID ∧
    (∀ k w, mapGet s.map k = some w → mapGet (processSound s snd).2.map k = some w) ∧
    (∀ k, mapHas s.map k = true → mapHas (processSound s snd).2.map k = true) ∧
    (s.needToFetch.Nodup → (∀ k2 ∈ s.needToFetch, mapHas s.map k2 = true) →
      (processSound s snd).2.needToFetch.Nodup ∧
        ∀ k2 ∈ (processSound s snd).2.needToFetch,
          mapHas (processSound s snd).2.map k2 = true) := by
  unfold processSound
  obtain ⟨hget, hpres, hmono, _, _⟩ := assignSoundId_spec s snd.md5
  exact ⟨rfl, hget, hpres, hmono, fun h1 h2 => assignSoundId_nf s snd.md5 h1 h2⟩

/-- The costume assignment pass: every output record's keys are bound to its
ids in the final map, earlier bindings survive, and the fetch-list
invariant is preserved. -/
theorem processCostumes_spec :
    ∀ (cs : List SB2Costume) (s : V2AssignState),
    (∀ k w, mapGet s.map k = some w → mapGet (processCostumes s cs).2.map k = some w) ∧
    (∀ k, mapHas s.map k = true → mapHas (processCostumes s cs).2.map k = true) ∧
    (∀ c ∈ (processCostumes s cs).1,
      mapGet (processCostumes s cs).2.map c.baseLayerMD5 = some c.baseLayerID ∧
        (c.textLayerMD5 ≠ "" →
          mapGet (processCostumes s cs).2.map c.textLayerMD5 = some c.textLayerID)) ∧
    (s.needToFetch.Nodup → (∀ k2 ∈ s.needToFetch, mapHas s.map k2 = true) →
      (processCostumes s cs).2.needToFetch.Nodup ∧
        ∀ k2 ∈ (processCostumes s cs).2.needToFetch,
          mapHas (processCostumes s cs).2.map k2 = true) := by
  intro cs
  induction cs with
  | nil =>
    intro s
    exact ⟨fun k w hw => hw, fun k hk => hk, by simp [processCostumes],
      fun h1 h2 => ⟨h1, h2⟩⟩
  | cons c rest ih =>
    intro s
    obtain ⟨hc1, hc2, hcb, hct, hcpres, hcmono, hcnf⟩ := processCostume_spec s c
    obtain ⟨hrpres, hrmono, hrrec, hrnf⟩ := ih (processCostume s c).2
    have hcons1 : (processCostumes s (c :: rest)).1 =
        (processCostume s c).1 :: (processCostumes (processCostume s c).2 rest).1 := rfl
    have hcons2 : (processCostumes s (c :: rest)).2 =
        (processCostumes (processCostume s c).2 rest).2 := rfl
    refine ⟨?_, ?_, ?_, ?_⟩
    · intro k w hw
      rw [hcons2]
      exact hrpres k w (hcpres k w hw)
    · intro k hk
      rw [hcons2]
      exact hrmono k (hcmono k hk)
    · intro c2 hc2mem
      rw [hcons1] at hc2mem
      rw [hcons2]
      rcases List.mem_cons.1 hc2mem with he | hmem
      · subst he
        refine ⟨hrpres _ _ hcb, ?_⟩
        intro htext
        exact hrpres _ _ (hct htext)
      · exact hrrec c2 hmem
    · intro h1 h2
      rw [hcons2]
      obtain ⟨h3, h4⟩ := hcnf h1 h2
      exact hrnf h3 h4

/-- The sound assignment pass, mirror of `processCostumes_spec`. -/
theorem processSounds_spec :
    ∀ (ss : List SB2Sound) (s : V2AssignState),
    (∀ k w, mapGet s.map k = some w → mapGet (processSounds s ss).2.map k = some w) ∧
    (∀ k, mapHas s.map k = true → mapHas (processSounds s ss).2.map k = true) ∧
    (∀ snd ∈ (processSounds s ss).1,
      mapGet (processSounds s ss).2.map snd.md5 = some snd.soundID) ∧
    (s.needToFetch.Nodup → (∀ k2 ∈ s.needToFetch, mapHas s.map k2 = true) →
      (processSounds s ss).2.needToFetch.Nodup ∧
        ∀ k2 ∈ (processSounds s ss).2.needToFetch,
          mapHas (processSounds s ss).2.map k2 = true) := by
  intro ss
  induction ss with
  | nil =>
    intro s
    exact ⟨fun k w hw => hw, fun k hk => hk, by simp [processSounds],
      fun h1 h2 => ⟨h1, h2⟩⟩
  | cons snd rest ih =>
    intro s
    obtain ⟨hs1, hsb, hspres, hsmono, hsnf⟩ := processSound_spec s snd
    obtain ⟨hrpres, hrmono, hrrec, hrnf⟩ := ih (processSound s snd).2
    have hcons1 : (processSounds s (snd :: rest)).1 =
        (processSound s snd).1 :: (processSounds (processSound s snd).2 rest).1 := rfl
    have hcons2 : (processSounds s (snd :: rest)).2 =
        (processSounds (processSound s snd).2 rest).2 := rfl
    refine ⟨?_, ?_, ?_, ?_⟩
    · intro k w hw
      rw [hcons2]
      exact hrpres k w (hspres k w hw)
    · intro k hk
      rw [hcons2]
      exact hrmono k (hsmono k hk)
    · intro s2 hs2mem
      rw [hcons1] at hs2mem
      rw [hcons2]
      rcases List.mem_cons.1 hs2mem with he | hmem
      · subst he
        exact hrpres _ _ hsb
      · exact hrrec s2 hmem
    · intro h1 h2
      rw [hcons2]
      obtain ⟨h3, h4⟩ := hsnf h1 h2
      exact hrnf h3 h4

/-- Both assignment passes together: every rewritten record's key is bound
to its id in the final map, and a clean initial fetch list stays
duplicate-free. -/
theorem v2_passes (s0 : V2AssignState) (cs : List SB2Costume) (ss : List SB2Sound)
    (h1 : s0.needToFetch.Nodup)
    (h2 : ∀ k ∈ s0.needToFetch, mapHas s0.map k = true) :
    (∀ c ∈ (processCostumes s0 cs).1,
      mapGet (processSounds (processCostumes s0 cs).2 ss).2.map c.baseLayerMD5 =
          some c.baseLayerID ∧
        (c.textLayerMD5 ≠ "" →
          mapGet (processSounds (processCostumes s0 cs).2 ss).2.map c.textLayerMD5 =
            some c.textLayerID)) ∧
    (∀ snd ∈ (processSounds (processCostumes s0 cs).2 ss).1,
      mapGet (processSounds (processCostumes s0 cs).2 ss).2.map snd.md5 =
        some snd.soundID) ∧
    (processSounds (processCostumes s0 cs).2 ss).2.needToFetch.Nodup := by
  obtain ⟨cpres, cmono, crec, cnf⟩ := processCostumes_spec cs s0
  obtain ⟨spres, smono, srec, snf⟩ := processSounds_spec ss (processCostumes s0 cs).2
  refine ⟨?_, srec, ?_⟩
  · intro c hc
    obtain ⟨hb, htx⟩ := crec c hc
    exact ⟨spres _ _ hb, fun htext => spres _ _ (htx htext)⟩
  · obtain ⟨h3, h4⟩ := cnf h1 h2
    exact (snf h3 h4).1

/-! ## v3 deduplication lemmas -/

/-- The missing-key list produced by `prepareAssets` has no duplicates and
avoids the already-known keys. -/
theorem prepareAssetsAux_nodup (zip : Zip) :
    ∀ (assets : List SB3Asset) (known : List String),
      (prepareAssetsAux zip assets known).Nodup ∧
        ∀ k ∈ prepareAssetsAux zip assets known, k ∉ known := by
  intro assets
  induction assets with
  | nil =>
    intro known
    simp [prepareAssetsAux]
  | cons a rest ih =>
    intro known
    rw [prepareAssetsAux]
    by_cases h1 : assetMd5ext a ∈ known
    · simp only [if_pos h1]
      exact ih known
    · simp only [if_neg h1]
      by_cases h2 : zipHas zip (assetMd5ext a) = true
      · simp only [if_pos h2]
        exact ih known
      · simp only [if_neg h2]
        obtain ⟨hnd, hnin⟩ := ih (assetMd5ext a :: known)
        constructor
        · refine List.Nodup.cons ?_ hnd
          intro hmem
          exact hnin _ hmem (List.mem_cons_self _ _)
        · intro k2 hk2
          rcases List.mem_cons.1 hk2 with he | hmem
          · rw [he]
            exact h1
          · intro hk2known
            exact hnin k2 hmem (List.mem_cons_of_mem _ hk2known)

/-- A referenced key that is neither in the zip nor already known shows up
in the missing list. -/
theorem prepareAssetsAux_mem (zip : Zip) :
    ∀ (assets : List SB3Asset) (known : List String) (k : String),
      (∃ a ∈ assets, assetMd5ext a = k) → zipHas zip k = false → k ∉ known →
      k ∈ prepareAssetsAux zip assets known := by
  intro assets
  induction assets with
  | nil =>
    intro known k hex _ _
    obtain ⟨a, ha, _⟩ := hex
    exact absurd ha (List.not_mem_nil a)
  | cons a0 rest ih =>
    intro known k hex hzip hknown
    rw [prepareAssetsAux]
    obtain ⟨a, ha, hak⟩ := hex
    by_cases h1 : assetMd5ext a0 ∈ known
    · simp only [if_pos h1]
      rcases List.mem_cons.1 ha with he | hmem
      · rw [he] at hak
        rw [hak] at h1
        exact absurd h1 hknown
      · exact ih known k ⟨a, hmem, hak⟩ hzip hknown
    · simp only [if_neg h1]
      by_cases h2 : zipHas zip (assetMd5ext a0) = true
      · simp only [if_pos h2]
        rcases List.mem_cons.1 ha with he | hmem
        · rw [he] at hak
          rw [hak] at h2
          rw [h2] at hzip
          exact Bool.noConfusion hzip
        · exact ih known k ⟨a, hmem, hak⟩ hzip hknown
      · simp only [if_neg h2]
        by_cases hk0 : assetMd5ext a0 = k
        · rw [hk0]
          exact List.mem_cons_self _ _
        · rcases List.mem_cons.1 ha with he | hmem
          · rw [he] at hak
            exact absurd hak hk0
          · refine List.mem_cons_of_mem _ ?_
            refine ih (assetMd5ext a0 :: known) k ⟨a, hmem, hak⟩ hzip ?_
            intro hm
            rcases List.mem_cons.1 hm with he2 | hm2
            · exact hk0 he2.symm
            · exact hknown hm2

/-- Adding fetched files preserves the no-duplicate-names invariant. -/
theorem addFetchedFiles_nodup (fs : List (String × Option (List Nat))) :
    ∀ z : Zip, (zipPaths z).Nodup → (zipPaths (addFetchedFiles z fs)).Nodup := by
  induction fs with
  | nil =>
    intro z h
    exact h
  | cons pr rest ih =>
    intro z h
    rcases pr with ⟨p, od⟩
    cases od with
    | none =>
      rw [addFetchedFiles_cons_none]
      exact ih z h
    | some dd =>
      rw [addFetchedFiles_cons_some]
      exact ih _ (zipPaths_nodup_zipSet z p _ h)

/-- In an archive with no duplicate names, a present name is carried by
exactly one member. -/
theorem zip_filter_path_length (z : Zip) (k : String)
    (hnd : (zipPaths z).Nodup) (hmem : k ∈ zipPaths z) :
    (z.files.filter (fun e => e.path == k)).length = 1 := by
  have h1 : (z.files.filter (fun e => e.path == k)).length = (zipPaths z).count k := by
    unfold zipPaths
    rw [List.count_eq_countP, List.countP_map, ← List.countP_eq_length_filter]
    rfl
  rw [h1]
  exact List.count_eq_one_of_mem hnd hmem

/-- C1: (v2) all record slots sharing an AssetKey receive the identical
assigned integer id and the fetch list never repeats a key; (v3) the
missing-key list never repeats a key, a referenced key absent from the
destination zip is fetched exactly once, and when its fetch succeeds the
assembled archive carries exactly one member under that key. -/
theorem claim_C1 :
    (∀ (zip : Zip) (cs : List SB2Costume) (ss : List SB2Sound),
      (∀ p1 ∈ v2AssignedPairs (downloadAssetsV2 zip cs ss),
        ∀ p2 ∈ v2AssignedPairs (downloadAssetsV2 zip cs ss),
          p1.1 = p2.1 → p1.2 = p2.2) ∧
      (downloadAssetsV2 zip cs ss).needToFetch.Nodup) ∧
    (∀ (zip : Zip) (assets : List SB3Asset), (prepareAssets zip assets).Nodup) ∧
    (∀ (zip : Zip) (assets : List SB3Asset) (k : String),
      (∃ a ∈ assets, assetMd5ext a = k) → zipHas zip k = false →
      (prepareAssets zip assets).count k = 1) ∧
    (∀ (p3 : SB3Project) (env : String → Option (List Nat)) (o : DLOptions)
       (k : String) (d : List Nat), env k = some d →
      (∃ a ∈ sb3Assets p3, assetMd5ext a = k) →
      ((downloadScratch3Zip p3 emptyZip env o).zip.files.filter
        (fun e => e.path == k)).length = 1) := by
  refine ⟨?_, ?_, ?_, ?_⟩
  · intro zip cs ss
    have hbind : ∀ pr ∈ v2AssignedPairs (downloadAssetsV2 zip cs ss),
        mapGet (downloadAssetsV2 zip cs ss).map pr.1 = some pr.2 := by
      intro pr hpr
      have hpass := v2_passes
        { map := (preSeedSounds zip ss (preSeedCostumes zip cs [] (-1)).1 (-1)).1
          needToFetch := []
          costumeAcc := if (preSeedCostumes zip cs [] (-1)).2 = -1 then 0
            else (preSeedCostumes zip cs [] (-1)).2 + 1
          soundAcc := if (preSeedSounds zip ss (preSeedCostumes zip cs [] (-1)).1 (-1)).2 = -1
            then 0
            else (preSeedSounds zip ss (preSeedCostumes zip cs [] (-1)).1 (-1)).2 + 1 }
        cs ss List.nodup_nil (by intro k hk; exact absurd hk (List.not_mem_nil k))
      obtain ⟨hcost, hsnd, _⟩ := hpass
      unfold v2AssignedPairs at hpr
      rcases List.mem_append.1 hpr with hpr1 | hprS
      · rcases List.mem_append.1 hpr1 with hprB | hprT
        · obtain ⟨c, hc, hce⟩ := List.mem_map.1 hprB
          rw [← hce]
          exact (hcost c hc).1
        · obtain ⟨c, hc, hce⟩ := List.mem_map.1 hprT
          have hcmem := List.mem_filter.1 hc
          have htext : c.textLayerMD5 ≠ "" := by
            have := hcmem.2
            simpa using this
          rw [← hce]
          exact (hcost c hcmem.1).2 htext
      · obtain ⟨snd, hs, hse⟩ := List.mem_map.1 hprS
        rw [← hse]
        exact hsnd snd hs
    refine ⟨?_, ?_⟩
    · intro p1 hp1 p2 hp2 hkey
      have h1 := hbind p1 hp1
      have h2 := hbind p2 hp2
      rw [hkey] at h1
      rw [h1] at h2
      exact Option.some.inj h2
    · have hpass := v2_passes
        { map := (preSeedSounds zip ss (preSeedCostumes zip cs [] (-1)).1 (-1)).1
          needToFetch := []
          costumeAcc := if (preSeedCostumes zip cs [] (-1)).2 = -1 then 0
            else (preSeedCostumes zip cs [] (-1)).2 + 1
          soundAcc := if (preSeedSounds zip ss (preSeedCostumes zip cs [] (-1)).1 (-1)).2 = -1
            then 0
            else (preSeedSounds zip ss (preSeedCostumes zip cs [] (-1)).1 (-1)).2 + 1 }
        cs ss List.nodup_nil (by intro k hk; exact absurd hk (List.not_mem_nil k))
      exact hpass.2.2
  · intro zip assets
    exact (prepareAssetsAux_nodup zip assets []).1
  · intro zip assets k hex hzip
    exact List.count_eq_one_of_mem (prepareAssetsAux_nodup zip assets []).1
      (prepareAssetsAux_mem zip assets [] k hex hzip (List.not_mem_nil k))
  · intro p3 env o k d henv hex
    have hz : (downloadScratch3Zip p3 emptyZip env o).zip =
        addFetchedFiles (storeProjectJSON emptyZip .sb3 (.sb3Data p3) o).1
          ((prepareAssets emptyZip (sb3Assets p3)).map (fun k2 => (k2, env k2))) := rfl
    obtain ⟨pdX, hfiles⟩ := storeProjectJSON_emptyZip .sb3 (.sb3Data p3) o
    have hstorend : (zipPaths (storeProjectJSON emptyZip .sb3 (.sb3Data p3) o).1).Nodup := by
      unfold zipPaths
      rw [hfiles]
      exact List.nodup_singleton _
    have hknodup : (zipPaths (downloadScratch3Zip p3 emptyZip env o).zip).Nodup := by
      rw [hz]
      exact addFetchedFiles_nodup _ _ hstorend
    have hkmem : k ∈ zipPaths (downloadScratch3Zip p3 emptyZip env o).zip := by
      rw [hz]
      apply zipPaths_addFetchedFiles_of_mem _ _ k d
      have hmiss : k ∈ prepareAssets emptyZip (sb3Assets p3) :=
        prepareAssetsAux_mem emptyZip (sb3Assets p3) [] k hex rfl (List.not_mem_nil k)
      have : (k, env k) ∈ (prepareAssets emptyZip (sb3Assets p3)).map
          (fun k2 => (k2, env k2)) := List.mem_map.2 ⟨k, hmiss, rfl⟩
      rw [henv] at this
      exact this
    exact zip_filter_path_length _ k hknodup hkmem

/-- Witness for C1: a v2 sprite list where two costumes and a sound share
keys, and a v3 project where two targets share one `assetId.dataFormat`
pair. -/
theorem claim_C1_witness :
    ((downloadAssetsV2 emptyZip
        [⟨"x.png", -1, "", 0⟩, ⟨"x.png", -1, "", 0⟩] [⟨"y.wav", -1⟩]).needToFetch.Nodup) ∧
      (prepareAssets emptyZip
        (sb3Assets ⟨[⟨[⟨"a", "svg", ""⟩], []⟩, ⟨[⟨"a", "svg", ""⟩], []⟩]⟩)).count "a.svg" = 1 ∧
      ((downloadScratch3Zip ⟨[⟨[⟨"a", "svg", ""⟩], []⟩, ⟨[⟨"a", "svg", ""⟩], []⟩]⟩ emptyZip
          (fun _ => some [7]) ⟨false, none, true, none, true⟩).zip.files.filter
        (fun e => e.path == "a.svg")).length = 1 :=
  ⟨(claim_C1.1 emptyZip [⟨"x.png", -1, "", 0⟩, ⟨"x.png", -1, "", 0⟩] [⟨"y.wav", -1⟩]).2,
   claim_C1.2.2.1 emptyZip
     (sb3Assets ⟨[⟨[⟨"a", "svg", ""⟩], []⟩, ⟨[⟨"a", "svg", ""⟩], []⟩]⟩) "a.svg"
     ⟨⟨"a", "svg", ""⟩, by decide, by decide⟩ rfl,
   claim_C1.2.2.2 ⟨[⟨[⟨"a", "svg", ""⟩], []⟩, ⟨[⟨"a", "svg", ""⟩], []⟩]⟩
     (fun _ => some [7]) ⟨false, none, true, none, true⟩ "a.svg" [7] rfl
     ⟨⟨"a", "svg", ""⟩, by decide, by decide⟩⟩

/-! ## Round-trip lemmas -/

/-- The flattening loop does nothing on an archive whose member names are
all already at the root. -/
theorem flatten_noop :
    ∀ (ps : List String) (z : Zip) (b : Bool),
    (∀ p ∈ ps, hasSlash p = false) →
    ps.foldl flattenEntry (.ok (z, b)) = .ok (z, b) := by
  intro ps
  induction ps with
  | nil =>
    intro z b _
    rfl
  | cons p rest ih =>
    intro z b h
    have hp : hasSlash p = false := h p (List.mem_cons_self _ _)
    have hstep : flattenEntry (.ok (z, b)) p = .ok (z, b) := by
      simp [flattenEntry, hp]
    rw [List.foldl_cons, hstep]
    exact ih z b (fun q hq => h q (List.mem_cons_of_mem _ hq))

/-- `flattenZip` leaves a flat archive untouched and reports no moves. -/
theorem flattenZip_flat (z : Zip)
    (h : ∀ p ∈ zipPaths z, hasSlash p = false) :
    flattenZip z = .ok (z, false) :=
  flatten_noop (zipPaths z) z false h

/-- Removing directory entries does nothing on a flat archive. -/
theorem removeDirEntries_flat (z : Zip)
    (h : ∀ p ∈ zipPaths z, hasSlash p = false) :
    removeDirEntries z = z := by
  unfold removeDirEntries
  have : z.files.filter (fun e => ¬(hasSlash e.path = true)) = z.files := by
    rw [List.filter_eq_self]
    intro e he
    have := h e.path (by unfold zipPaths; exact List.mem_map.2 ⟨e, he, rfl⟩)
    simp [this]
  rw [this]

/-- A member lookup success means the name is taken. -/
theorem zipHas_of_zipGet (z : Zip) (p : String) (d : FileData)
    (h : zipGet z p = some d) : zipHas z p = true := by
  unfold zipGet at h
  unfold zipHas
  rcases hf : z.files.find? (fun e => e.path = p) with _ | e
  · rw [hf] at h
    exact Option.noConfusion h
  · have hmem := List.mem_of_find?_eq_some hf
    have hpred := List.find?_some hf
    simp only [decide_eq_true_eq] at hpred
    simp only [List.any_eq_true, decide_eq_true_eq]
    exact ⟨e, hmem, hpred⟩

/-- With no `processJSON` and `project.json` already a member,
`storeProjectJSON` reports no modification. -/
theorem storeProjectJSON_noop (z : Zip) (t : ProjectType) (pd : ProjectData)
    (o : DLOptions) (hpj : o.processJSON = none)
    (hhas : zipHas z "project.json" = true) :
    storeProjectJSON z t pd o = (z, false) := by
  unfold storeProjectJSON
  rw [hpj, if_pos hhas]

/-- When every referenced key is already a member, nothing is missing. -/
theorem prepareAssetsAux_all_present (zip : Zip) :
    ∀ (assets : List SB3Asset) (known : List String),
    (∀ a ∈ assets, zipHas zip (assetMd5ext a) = true) →
    prepareAssetsAux zip assets known = [] := by
  intro assets
  induction assets with
  | nil =>
    intro known _
    rfl
  | cons a rest ih =>
    intro known h
    rw [prepareAssetsAux]
    by_cases h1 : assetMd5ext a ∈ known
    · rw [if_pos h1]
      exact ih known (fun a2 ha2 => h a2 (List.mem_cons_of_mem _ ha2))
    · rw [if_neg h1, if_pos (h a (List.mem_cons_self _ _))]
      exact ih known (fun a2 ha2 => h a2 (List.mem_cons_of_mem _ ha2))

/-! ## Pre-seeding lemmas -/

/-- Key presence is monotone along the costume pre-seeding pass. -/
theorem preSeedCostumes_mono (zip : Zip) :
    ∀ (cs : List SB2Costume) (m : List (String × Int)) (l : Int) (k : String),
    mapHas m k = true → mapHas (preSeedCostumes zip cs m l).1 k = true := by
  intro cs
  induction cs with
  | nil =>
    intro m l k h
    exact h
  | cons c rest ih =>
    intro m l k h
    rw [preSeedCostumes]
    by_cases h1 : c.baseLayerID ≥ 0 ∧ zipHas zip (pathFor c.baseLayerID
        (if getExtension c.baseLayerMD5 = "" then "png" else getExtension c.baseLayerMD5)) = true
    · by_cases h2 : c.textLayerMD5 ≠ ""
      · by_cases h3 : c.textLayerID ≥ 0 ∧ zipHas zip (pathFor c.textLayerID "png") = true
        · simp only [if_pos h1, if_pos h2, if_pos h3]
          exact ih _ _ k (mapHas_mapSet_mono _ _ _ _ (mapHas_mapSet_mono _ _ _ _ h))
        · simp only [if_pos h1, if_pos h2, if_neg h3]
          exact ih _ _ k (mapHas_mapSet_mono _ _ _ _ h)
      · simp only [if_pos h1, if_neg h2]
        exact ih _ _ k (mapHas_mapSet_mono _ _ _ _ h)
    · by_cases h2 : c.textLayerMD5 ≠ ""
      · by_cases h3 : c.textLayerID ≥ 0 ∧ zipHas zip (pathFor c.textLayerID "png") = true
        · simp only [if_neg h1, if_pos h2, if_pos h3]
          exact ih _ _ k (mapHas_mapSet_mono _ _ _ _ h)
        · simp only [if_neg h1, if_pos h2, if_neg h3]
          exact ih _ _ k h
      · simp only [if_neg h1, if_neg h2]
        exact ih _ _ k h

/-- Key presence is monotone along the sound pre-seeding pass. -/
theorem preSeedSounds_mono (zip : Zip) :
    ∀ (ss : List SB2Sound) (m : List (String × Int)) (l : Int) (k : String),
    mapHas m k = true → mapHas (preSeedSounds zip ss m l).1 k = true := by
  intro ss
  induction ss with
  | nil =>
    intro m l k h
    exact h
  | cons s rest ih =>
    intro m l k h
    rw [preSeedSounds]
    by_cases h1 : s.soundID ≥ 0 ∧ zipHas zip (pathFor s.soundID (getExtension s.md5)) = true
    · simp only [if_pos h1]
      exact ih _ _ k (mapHas_mapSet_mono _ _ _ _ h)
    · simp only [if_neg h1]
      exact ih _ _ k h

/-- A fully pre-seeded costume list leaves every costume's keys present in
the map after the costume pre-seeding pass. -/
theorem preSeedCostumes_covers (zip : Zip) :
    ∀ (cs : List SB2Costume) (m : List (String × Int)) (l : Int),
    (∀ c ∈ cs, costumePreseeded zip c = true) →
    ∀ c ∈ cs, mapHas (preSeedCostumes zip cs m l).1 c.baseLayerMD5 = true ∧
      (c.textLayerMD5 ≠ "" →
        mapHas (preSeedCostumes zip cs m l).1 c.textLayerMD5 = true) := by
  intro cs
  induction cs with
  | nil =>
    intro m l _ c hc
    exact absurd hc (List.not_mem_nil c)
  | cons c0 rest ih =>
    intro m l hall c hc
    have hc0 := hall c0 (List.mem_cons_self _ _)
    unfold costumePreseeded at hc0
    simp only [Bool.and_eq_true, decide_eq_true_eq] at hc0
    have h1 : c0.baseLayerID ≥ 0 ∧ zipHas zip (pathFor c0.baseLayerID
        (if getExtension c0.baseLayerMD5 = "" then "png" else getExtension c0.baseLayerMD5)) = true :=
      ⟨hc0.1.1, hc0.1.2⟩
    rcases List.mem_cons.1 hc with he | hmem
    · subst he
      rw [preSeedCostumes]
      simp only [if_pos h1]
      by_cases h2 : c.textLayerMD5 ≠ ""
      · have hc02 := hc0.2
        rw [if_pos h2] at hc02
        simp only [Bool.and_eq_true, decide_eq_true_eq] at hc02
        have h3 : c.textLayerID ≥ 0 ∧ zipHas zip (pathFor c.textLayerID "png") = true :=
          ⟨hc02.1, hc02.2⟩
        simp only [if_pos h2, if_pos h3]
        constructor
        · exact preSeedCostumes_mono zip rest _ _ _
            (mapHas_mapSet_mono _ _ _ _ (mapHas_mapSet_self _ _ _))
        · intro _
          exact preSeedCostumes_mono zip rest _ _ _ (mapHas_mapSet_self _ _ _)
      · simp only [if_neg h2]
        refine ⟨?_, fun hcontra => absurd hcontra h2⟩
        exact preSeedCostumes_mono zip rest _ _ _ (mapHas_mapSet_self _ _ _)
    · rw [preSeedCostumes]
      exact ih _ _ (fun c2 hc2 => hall c2 (List.mem_cons_of_mem _ hc2)) c hmem

/-- A fully pre-seeded sound list leaves every sound's key present in the
map after the sound pre-seeding pass. -/
theorem preSeedSounds_covers (zip : Zip) :
    ∀ (ss : List SB2Sound) (m : List (String × Int)) (l : Int),
    (∀ s ∈ ss, soundPreseeded zip s = true) →
    ∀ s ∈ ss, mapHas (preSeedSounds zip ss m l).1 s.md5 = true := by
  intro ss
  induction ss with
  | nil =>
    intro m l _ s hs
    exact absurd hs (List.not_mem_nil s)
  | cons s0 rest ih =>
    intro m l hall s hs
    have hs0 := hall s0 (List.mem_cons_self _ _)
    unfold soundPreseeded at hs0
    simp only [Bool.and_eq_true, decide_eq_true_eq] at hs0
    have h1 : s0.soundID ≥ 0 ∧ zipHas zip (pathFor s0.soundID (getExtension s0.md5)) = true :=
      ⟨hs0.1, hs0.2⟩
    rcases List.mem_cons.1 hs with he | hmem
    · subst he
      rw [preSeedSounds]
      simp only [if_pos h1]
      exact preSeedSounds_mono zip rest _ _ _ (mapHas_mapSet_self _ _ _)
    · rw [preSeedSounds]
      exact ih _ _ (fun s2 hs2 => hall s2 (List.mem_cons_of_mem _ hs2)) s hmem

/-! ## Assignment pass on fully pre-seeded state -/

/-- `assignCostumeId` is a no-op on the state when the key is present. -/
theorem assignCostumeId_present (s : V2AssignState) (k : String)
    (h : mapHas s.map k = true) : (assignCostumeId s k).2 = s := by
  unfold assignCostumeId
  rw [if_pos h]

/-- `assignSoundId` is a no-op on the state when the key is present. -/
theorem assignSoundId_present (s : V2AssignState) (k : String)
    (h : mapHas s.map k = true) : (assignSoundId s k).2 = s := by
  unfold assignSoundId
  rw [if_pos h]

/-- The costume assignment pass leaves the state untouched when every key
is already bound. -/
theorem processCostumes_present :
    ∀ (cs : List SB2Costume) (s : V2AssignState),
    (∀ c ∈ cs, mapHas s.map c.baseLayerMD5 = true ∧
      (c.textLayerMD5 ≠ "" → mapHas s.map c.textLayerMD5 = true)) →
    (processCostumes s cs).2 = s := by
  intro cs
  induction cs with
  | nil =>
    intro s _
    rfl
  | cons c rest ih =>
    intro s h
    obtain ⟨hb, ht⟩ := h c (List.mem_cons_self _ _)
    have hstep : (processCostume s c).2 = s := by
      unfold processCostume
      by_cases h2 : c.textLayerMD5 ≠ ""
      · simp only [if_pos h2]
        rw [assignCostumeId_present s c.baseLayerMD5 hb,
          assignCostumeId_present s c.textLayerMD5 (ht h2)]
      · simp only [if_neg h2]
        rw [assignCostumeId_present s c.baseLayerMD5 hb]
    have hcons : (processCostumes s (c :: rest)).2 =
        (processCostumes (processCostume s c).2 rest).2 := rfl
    rw [hcons, hstep]
    exact ih s (fun c2 hc2 => h c2 (List.mem_cons_of_mem _ hc2))

/-- The sound assignment pass leaves the state untouched when every key is
already bound. -/
theorem processSounds_present :
    ∀ (ss : List SB2Sound) (s : V2AssignState),
    (∀ snd ∈ ss, mapHas s.map snd.md5 = true) →
    (processSounds s ss).2 = s := by
  intro ss
  induction ss with
  | nil =>
    intro s _
    rfl
  | cons snd rest ih =>
    intro s h
    have hstep : (processSound s snd).2 = s := by
      unfold processSound
      rw [assignSoundId_present s snd.md5 (h snd (List.mem_cons_self _ _))]
    have hcons : (processSounds s (snd :: rest)).2 =
        (processSounds (processSound s snd).2 rest).2 := rfl
    rw [hcons, hstep]
    exact ih s (fun s2 hs2 => h s2 (List.mem_cons_of_mem _ hs2))

/-- On a fully pre-seeded archive the v2 reconciler queues nothing for
fetching. -/
theorem downloadAssetsV2_preseeded (zip : Zip) (cs : List SB2Costume)
    (ss : List SB2Sound) (h : v2Preseeded zip cs ss = true) :
    (downloadAssetsV2 zip cs ss).needToFetch = [] := by
  unfold v2Preseeded at h
  simp only [Bool.and_eq_true, List.all_eq_true] at h
  obtain ⟨hcs, hss⟩ := h
  have hmapC := preSeedCostumes_covers zip cs [] (-1) hcs
  have hmapS := preSeedSounds_covers zip ss (preSeedCostumes zip cs [] (-1)).1 (-1) hss
  set m2 := (preSeedSounds zip ss (preSeedCostumes zip cs [] (-1)).1 (-1)).1 with hm2
  set s0 : V2AssignState :=
    { map := m2
      needToFetch := []
      costumeAcc := if (preSeedCostumes zip cs [] (-1)).2 = -1 then 0
        else (preSeedCostumes zip cs [] (-1)).2 + 1
      soundAcc := if (preSeedSounds zip ss (preSeedCostumes zip cs [] (-1)).1 (-1)).2 = -1
        then 0
        else (preSeedSounds zip ss (preSeedCostumes zip cs [] (-1)).1 (-1)).2 + 1 }
    with hs0
  have hckeys : ∀ c ∈ cs, mapHas s0.map c.baseLayerMD5 = true ∧
      (c.textLayerMD5 ≠ "" → mapHas s0.map c.textLayerMD5 = true) := by
    intro c hc
    obtain ⟨hb, ht⟩ := hmapC c hc
    constructor
    · exact preSeedSounds_mono zip ss _ _ _ hb
    · intro htext
      exact preSeedSounds_mono zip ss _ _ _ (ht htext)
  have hskeys : ∀ snd ∈ ss, mapHas s0.map snd.md5 = true := fun snd hs => hmapS snd hs
  have hc := processCostumes_present cs s0 hckeys
  have hneq : (downloadAssetsV2 zip cs ss).needToFetch =
      (processSounds (processCostumes s0 cs).2 ss).2.needToFetch := rfl
  rw [hneq, hc]
  have hsnd := processSounds_present ss s0 hskeys
  rw [hsnd]

/-- C4: feeding an archive previously produced by the downloader (flat
member names, a `project.json` member of a recognized type, every
referenced asset already present under its key resp. pre-seeded id) back
into the buffer entry point with no custom date and no `processJSON`
returns the input bytes unchanged, byte for byte (`.original`). -/
theorem claim_C4 (buf : BufferInput) (env : String → Option (List Nat))
    (o : DLOptions) (zip : Zip) (pd : ProjectData)
    (hab : o.aborted = false) (hdate : o.date = none) (hpj : o.processJSON = none)
    (hjson : isProbablyJSON buf.bytes = false)
    (hsb1 : isScratch1Project buf.bytes = false)
    (hzip : buf.asZip = some zip)
    (hflat : ∀ p ∈ zipPaths zip, hasSlash p = false)
    (hproj : zipGet zip "project.json" = some (.jsonFile pd))
    (hready :
      (∃ p3, pd = .sb3Data p3 ∧
        (sb3Assets p3).all (fun a => zipHas zip (assetMd5ext a)) = true) ∨
      (∃ p2, pd = .sb2Data p2 ∧
        v2Preseeded zip (flat ((spritesOf p2).map (fun s => s.costumes)))
          (flat ((spritesOf p2).map (fun s => s.sounds))) = true)) :
    ∃ t, identifyProjectTypeFromJSON pd = some t ∧
      downloadProjectFromBufferM buf env o =
        .ok { title := "", type := t, arrayBuffer := .original buf.bytes } := by
  have hflatten := flattenZip_flat zip hflat
  have hremove : removeDirEntries zip = zip := removeDirEntries_flat zip hflat
  have hhasproj := zipHas_of_zipGet _ _ _ hproj
  rcases hready with ⟨p3, hpd, hall⟩ | ⟨p2, hpd, hpre⟩
  · subst hpd
    refine ⟨.sb3, rfl, ?_⟩
    have hmiss : prepareAssets zip (sb3Assets p3) = [] :=
      prepareAssetsAux_all_present zip (sb3Assets p3) []
        (fun a ha => List.all_eq_true.1 hall a ha)
    have hda : (downloadScratch3Zip p3 zip env o).downloadedAssets = 0 := by
      show ((prepareAssets zip (sb3Assets p3)).map (fun k => (k, env k))).length = 0
      rw [hmiss]
      rfl
    have hmj : (downloadScratch3Zip p3 zip env o).modifiedJSON = false := by
      show (storeProjectJSON zip .sb3 (.sb3Data p3) o).2 = false
      rw [storeProjectJSON_noop zip _ _ o hpj hhasproj]
    unfold downloadProjectFromBufferM
    rw [hab]
    simp only [hjson, hsb1, hzip, Bool.false_eq_true, if_false]
    rw [hflatten]
    simp only [hremove, hproj, parseProjectFile]
    simp only [hda, hmj, hdate, Option.isSome_none]
    rfl
  · subst hpd
    refine ⟨.sb2, rfl, ?_⟩
    have hneed : (downloadAssetsV2 zip
        (flat ((spritesOf p2).map (fun s => s.costumes)))
        (flat ((spritesOf p2).map (fun s => s.sounds)))).needToFetch = [] :=
      downloadAssetsV2_preseeded zip _ _ hpre
    have hda : (downloadScratch2Zip p2 zip env o).downloadedAssets = 0 := by
      show ((downloadAssetsV2 zip
        (flat ((spritesOf p2).map (fun s => s.costumes)))
        (flat ((spritesOf p2).map (fun s => s.sounds)))).needToFetch.map _).length = 0
      rw [hneed]
      rfl
    have hmj : (downloadScratch2Zip p2 zip env o).modifiedJSON = false := by
      show (storeProjectJSON zip .sb2 _ o).2 = false
      rw [storeProjectJSON_noop zip _ _ o hpj hhasproj]
    unfold downloadProjectFromBufferM
    rw [hab]
    simp only [hjson, hsb1, hzip, Bool.false_eq_true, if_false]
    rw [hflatten]
    simp only [hremove, hproj, parseProjectFile]
    simp only [hda, hmj, hdate, Option.isSome_none]
    rfl

/-- Witness for C4: a concrete flat sb3 archive whose only asset is already
a member round-trips to its original bytes. -/
theorem claim_C4_witness :
    downloadProjectFromBufferM
        ⟨[80, 75, 3, 4],
         some ⟨[⟨"project.json", .jsonFile (.sb3Data ⟨[⟨[⟨"a", "svg", ""⟩], []⟩]⟩)⟩,
                ⟨"a.svg", .bytesFile [1, 2]⟩]⟩,
         none⟩
        (fun _ => none) ⟨false, none, true, none, true⟩ =
      .ok { title := "", type := .sb3, arrayBuffer := .original [80, 75, 3, 4] } := by
  obtain ⟨t, ht, he⟩ := claim_C4
    ⟨[80, 75, 3, 4],
     some ⟨[⟨"project.json", .jsonFile (.sb3Data ⟨[⟨[⟨"a", "svg", ""⟩], []⟩]⟩)⟩,
            ⟨"a.svg", .bytesFile [1, 2]⟩]⟩,
     none⟩
    (fun _ => none) ⟨false, none, true, none, true⟩
    ⟨[⟨"project.json", .jsonFile (.sb3Data ⟨[⟨[⟨"a", "svg", ""⟩], []⟩]⟩)⟩,
      ⟨"a.svg", .bytesFile [1, 2]⟩]⟩
    (.sb3Data ⟨[⟨[⟨"a", "svg", ""⟩], []⟩]⟩)
    rfl rfl rfl (by decide) (by decide) rfl (by decide) (by decide)
    (Or.inl ⟨⟨[⟨[⟨"a", "svg", ""⟩], []⟩]⟩, rfl, by decide⟩)
  have ht2 : ProjectType.sb3 = t := by
    simpa [identifyProjectTypeFromJSON] using ht
  rw [← ht2] at he
  exact he

/-! ## Contiguity of the v2 id namespaces -/

/-- Membership in the image ids of a cons. -/
theorem mem_imageIdsOf_cons (c : SB2Costume) (rest : List SB2Costume) (v : Int) :
    v ∈ imageIdsOf (c :: rest) ↔
      v = c.baseLayerID ∨ (c.textLayerMD5 ≠ "" ∧ v = c.textLayerID) ∨
        v ∈ imageIdsOf rest := by
  unfold imageIdsOf
  by_cases ht : c.textLayerMD5 ≠ ""
  · have hf : (c :: rest).filter (fun c2 => c2.textLayerMD5 != "") =
        c :: rest.filter (fun c2 => c2.textLayerMD5 != "") := by
      rw [List.filter_cons_of_pos]
      simpa using ht
    rw [hf]
    simp only [List.map_cons, List.mem_append, List.mem_cons, ht, true_and]
    tauto
  · have hf : (c :: rest).filter (fun c2 => c2.textLayerMD5 != "") =
        rest.filter (fun c2 => c2.textLayerMD5 != "") := by
      rw [List.filter_cons_of_neg]
      simpa using ht
    rw [hf]
    simp only [List.map_cons, List.mem_append, List.mem_cons, ht, false_and]
    tauto

/-- Membership in the bindable keys of a cons. -/
theorem mem_costumeKeys_cons (c : SB2Costume) (rest : List SB2Costume) (k : String) :
    k ∈ costumeKeys (c :: rest) ↔
      k = c.baseLayerMD5 ∨ (c.textLayerMD5 ≠ "" ∧ k = c.textLayerMD5) ∨
        k ∈ costumeKeys rest := by
  unfold costumeKeys
  by_cases ht : c.textLayerMD5 ≠ ""
  · have hf : (c :: rest).filter (fun c2 => c2.textLayerMD5 != "") =
        c :: rest.filter (fun c2 => c2.textLayerMD5 != "") := by
      rw [List.filter_cons_of_pos]
      simpa using ht
    rw [hf]
    simp only [List.map_cons, List.mem_append, List.mem_cons, ht, true_and]
    tauto
  · have hf : (c :: rest).filter (fun c2 => c2.textLayerMD5 != "") =
        rest.filter (fun c2 => c2.textLayerMD5 != "") := by
      rw [List.filter_cons_of_neg]
      simpa using ht
    rw [hf]
    simp only [List.map_cons, List.mem_append, List.mem_cons, ht, false_and]
    tauto

/-- Membership in the sound ids of a cons. -/
theorem mem_soundIdsOf_cons (snd : SB2Sound) (rest : List SB2Sound) (v : Int) :
    v ∈ soundIdsOf (snd :: rest) ↔ v = snd.soundID ∨ v ∈ soundIdsOf rest := by
  unfold soundIdsOf
  simp

/-- Pre-seeding against an empty archive registers nothing (costumes). -/
theorem preSeedCostumes_emptyZip :
    ∀ (cs : List SB2Costume) (m : List (String × Int)) (l : Int),
    preSeedCostumes emptyZip cs m l = (m, l) := by
  intro cs
  induction cs with
  | nil =>
    intro m l
    rfl
  | cons c rest ih =>
    intro m l
    rw [preSeedCostumes]
    have h1 : ¬(c.baseLayerID ≥ 0 ∧ zipHas emptyZip (pathFor c.baseLayerID
        (if getExtension c.baseLayerMD5 = "" then "png"
         else getExtension c.baseLayerMD5)) = true) := by
      rintro ⟨-, h⟩
      simp [zipHas, emptyZip] at h
    have h3 : ¬(c.textLayerID ≥ 0 ∧ zipHas emptyZip (pathFor c.textLayerID "png") = true) := by
      rintro ⟨-, h⟩
      simp [zipHas, emptyZip] at h
    by_cases h2 : c.textLayerMD5 ≠ ""
    · simp only [if_neg h1, if_pos h2, if_neg h3]
      exact ih m l
    · simp only [if_neg h1, if_neg h2]
      exact ih m l

/-- Pre-seeding against an empty archive registers nothing (sounds). -/
theorem preSeedSounds_emptyZip :
    ∀ (ss : List SB2Sound) (m : List (String × Int)) (l : Int),
    preSeedSounds emptyZip ss m l = (m, l) := by
  intro ss
  induction ss with
  | nil =>
    intro m l
    rfl
  | cons s rest ih =>
    intro m l
    rw [preSeedSounds]
    have h1 : ¬(s.soundID ≥ 0 ∧ zipHas emptyZip (pathFor s.soundID (getExtension s.md5)) = true) := by
      rintro ⟨-, h⟩
      simp [zipHas, emptyZip] at h
    simp only [if_neg h1]
    exact ih m l

/-- A successful map lookup exhibits a member pair. -/
theorem mapGet_mem (m : List (String × Int)) (k : String) (v : Int)
    (h : mapGet m k = some v) : (k, v) ∈ m := by
  unfold mapGet at h
  rcases hf : m.find? (fun e => e.1 = k) with _ | e
  · rw [hf] at h
    exact Option.noConfusion h
  · rw [hf] at h
    have hmem := List.mem_of_find?_eq_some hf
    have hpred := List.find?_some hf
    simp only [decide_eq_true_eq] at hpred
    simp only [Option.map_some', Option.some.injEq] at h
    have : e = (k, v) := by
      rcases e with ⟨e1, e2⟩
      simp only at hpred h
      rw [hpred, h]
    rw [← this]
    exact hmem

/-- Range facts for `assignCostumeId`: map values stay inside
`[0, costumeAcc)`, the accumulator only grows, the returned id is in
range, the ids minted by this call are exactly the returned one, and new
bindings are keyed by the requested key. -/
theorem assignCostumeId_range (s : V2AssignState) (k : String)
    (hCI : ∀ e ∈ s.map, 0 ≤ e.2 ∧ e.2 < s.costumeAcc)
    (hacc : 0 ≤ s.costumeAcc) :
    (∀ e ∈ (assignCostumeId s k).2.map, 0 ≤ e.2 ∧ e.2 < (assignCostumeId s k).2.costumeAcc) ∧
    s.costumeAcc ≤ (assignCostumeId s k).2.costumeAcc ∧
    0 ≤ (assignCostumeId s k).2.costumeAcc ∧
    (assignCostumeId s k).2.soundAcc = s.soundAcc ∧
    (0 ≤ (assignCostumeId s k).1 ∧
      (assignCostumeId s k).1 < (assignCostumeId s k).2.costumeAcc) ∧
    (∀ w : Int, s.costumeAcc ≤ w → w < (assignCostumeId s k).2.costumeAcc →
      w = (assignCostumeId s k).1) ∧
    (∀ e ∈ (assignCostumeId s k).2.map, e ∈ s.map ∨ e.1 = k) := by
  unfold assignCostumeId
  by_cases h : mapHas s.map k = true
  · simp only [if_pos h]
    obtain ⟨w, hw⟩ := mapGet_isSome_of_has s.map k h
    have hmem := mapGet_mem s.map k w hw
    have hbounds := hCI (k, w) hmem
    rw [hw]
    simp only [Option.getD_some]
    refine ⟨hCI, le_refl _, hacc, by trivial, ⟨hbounds.1, hbounds.2⟩, ?_, fun e he => Or.inl he⟩
    intro w2 hw2 hw3
    omega
  · simp only [if_neg h]
    have hfalse : mapHas s.map k = false := by simpa using h
    have hmapset : mapSet s.map k s.costumeAcc = s.map ++ [(k, s.costumeAcc)] := by
      unfold mapSet
      rw [if_neg (by simp [hfalse])]
    rw [hmapset]
    refine ⟨?_, by omega, by omega, by trivial, ⟨hacc, by omega⟩, fun w2 hw2 hw3 => by omega, ?_⟩
    · intro e he
      rcases List.mem_append.1 he with he2 | he2
      · have := hCI e he2
        omega
      · rw [List.mem_singleton.1 he2]
        constructor
        · exact hacc
        · omega
    · intro e he
      rcases List.mem_append.1 he with he2 | he2
      · exact Or.inl he2
      · right
        rw [List.mem_singleton.1 he2]

/-- Range facts for `assignSoundId` relative to a base map `m0` of
pre-existing (costume-pass) bindings: entries are base bindings or carry a
sound-namespace id in `[0, soundAcc)`; when the key never occurs in `m0`
the returned id is in the sound range; minted ids are exactly the returned
one; the costume accumulator is untouched. -/
theorem assignSoundId_range (m0 : List (String × Int)) (s : V2AssignState) (k : String)
    (hJ : ∀ e ∈ s.map, e ∈ m0 ∨ (0 ≤ e.2 ∧ e.2 < s.soundAcc))
    (hacc : 0 ≤ s.soundAcc)
    (hknotin : ∀ v : Int, (k, v) ∉ m0) :
    (∀ e ∈ (assignSoundId s k).2.map, e ∈ m0 ∨
      (0 ≤ e.2 ∧ e.2 < (assignSoundId s k).2.soundAcc)) ∧
    s.soundAcc ≤ (assignSoundId s k).2.soundAcc ∧
    0 ≤ (assignSoundId s k).2.soundAcc ∧
    (assignSoundId s k).2.costumeAcc = s.costumeAcc ∧
    (0 ≤ (assignSoundId s k).1 ∧
      (assignSoundId s k).1 < (assignSoundId s k).2.soundAcc) ∧
    (∀ w : Int, s.soundAcc ≤ w → w < (assignSoundId s k).2.soundAcc →
      w = (assignSoundId s k).1) := by
  unfold assignSoundId
  by_cases h : mapHas s.map k = true
  · simp only [if_pos h]
    obtain ⟨w, hw⟩ := mapGet_isSome_of_has s.map k h
    have hmem := mapGet_mem s.map k w hw
    have hbounds : 0 ≤ w ∧ w < s.soundAcc := by
      rcases hJ (k, w) hmem with hin | hb
      · exact absurd hin (hknotin w)
      · exact hb
    rw [hw]
    simp only [Option.getD_some]
    refine ⟨hJ, le_refl _, hacc, by trivial, ⟨hbounds.1, hbounds.2⟩, ?_⟩
    intro w2 hw2 hw3
    omega
  · simp only [if_neg h]
    have hfalse : mapHas s.map k = false := by simpa using h
    have hmapset : mapSet s.map k s.soundAcc = s.map ++ [(k, s.soundAcc)] := by
      unfold mapSet
      rw [if_neg (by simp [hfalse])]
    rw [hmapset]
    refine ⟨?_, by omega, by omega, by trivial, ⟨hacc, by omega⟩, fun w2 hw2 hw3 => by omega⟩
    intro e he
    rcases List.mem_append.1 he with he2 | he2
    · rcases hJ e he2 with hin | hb
      · exact Or.inl hin
      · right
        omega
    · right
      rw [List.mem_singleton.1 he2]
      constructor
      · exact hacc
      · omega

/-- Range facts for rewriting one costume: bounds of the map and of the
record's new ids, the exact set of minted ids, and the keys of new
bindings. -/
theorem processCostume_range (s : V2AssignState) (c : SB2Costume)
    (hCI : ∀ e ∈ s.map, 0 ≤ e.2 ∧ e.2 < s.costumeAcc)
    (hacc : 0 ≤ s.costumeAcc) :
    (∀ e ∈ (processCostume s c).2.map, 0 ≤ e.2 ∧ e.2 < (processCostume s c).2.costumeAcc) ∧
    s.costumeAcc ≤ (processCostume s c).2.costumeAcc ∧
    0 ≤ (processCostume s c).2.costumeAcc ∧
    (processCostume s c).2.soundAcc = s.soundAcc ∧
    (0 ≤ (processCostume s c).1.baseLayerID ∧
      (processCostume s c).1.baseLayerID < (processCostume s c).2.costumeAcc) ∧
    (c.textLayerMD5 ≠ "" →
      0 ≤ (processCostume s c).1.textLayerID ∧
        (processCostume s c).1.textLayerID < (processCostume s c).2.costumeAcc) ∧
    (∀ w : Int, s.costumeAcc ≤ w → w < (processCostume s c).2.costumeAcc →
      (w = (processCostume s c).1.baseLayerID ∨
        (c.textLayerMD5 ≠ "" ∧ w = (processCostume s c).1.textLayerID))) ∧
    (∀ e ∈ (processCostume s c).2.map, e ∈ s.map ∨ e.1 = c.baseLayerMD5 ∨
      (c.textLayerMD5 ≠ "" ∧ e.1 = c.textLayerMD5)) ∧
    (processCostume s c).1.baseLayerMD5 = c.baseLayerMD5 ∧
    (processCostume s c).1.textLayerMD5 = c.textLayerMD5 := by
  obtain ⟨hbm, hbmono, hbpos, hbsnd, hbv, hbnew, hbdom⟩ :=
    assignCostumeId_range s c.baseLayerMD5 hCI hacc
  unfold processCostume
  by_cases ht : c.textLayerMD5 ≠ ""
  · obtain ⟨htm, htmono, htpos, htsnd, htv, htnew, htdom⟩ :=
      assignCostumeId_range (assignCostumeId s c.baseLayerMD5).2 c.textLayerMD5 hbm hbpos
    simp only [if_pos ht]
    refine ⟨htm, le_trans hbmono htmono, htpos, hbsnd ▸ htsnd, ?_, ?_, ?_, ?_, by trivial, by trivial⟩
    · exact ⟨hbv.1, lt_of_lt_of_le hbv.2 htmono⟩
    · intro _
      exact ⟨htv.1, htv.2⟩
    · intro w hw1 hw2
      by_cases hwb : w < (assignCostumeId s c.baseLayerMD5).2.costumeAcc
      · exact Or.inl (hbnew w hw1 hwb)
      · refine Or.inr ⟨ht, ?_⟩
        exact htnew w (by omega) hw2
    · intro e he
      rcases htdom e he with he2 | he2
      · rcases hbdom e he2 with he3 | he3
        · exact Or.inl he3
        · exact Or.inr (Or.inl he3)
      · exact Or.inr (Or.inr ⟨ht, he2⟩)
  · simp only [if_neg ht]
    refine ⟨hbm, hbmono, hbpos, hbsnd, ⟨hbv.1, hbv.2⟩, ?_, ?_, ?_, by trivial, by trivial⟩
    · intro hcontra
      exact absurd hcontra ht
    · intro w hw1 hw2
      exact Or.inl (hbnew w hw1 hw2)
    · intro e he
      rcases hbdom e he with he2 | he2
      · exact Or.inl he2
      · exact Or.inr (Or.inl he2)

/-- Range facts for rewriting one sound, relative to the base map `m0`. -/
theorem processSound_range (m0 : List (String × Int)) (s : V2AssignState) (snd : SB2Sound)
    (hJ : ∀ e ∈ s.map, e ∈ m0 ∨ (0 ≤ e.2 ∧ e.2 < s.soundAcc))
    (hacc : 0 ≤ s.soundAcc)
    (hknotin : ∀ v : Int, (snd.md5, v) ∉ m0) :
    (∀ e ∈ (processSound s snd).2.map, e ∈ m0 ∨
      (0 ≤ e.2 ∧ e.2 < (processSound s snd).2.soundAcc)) ∧
    s.soundAcc ≤ (processSound s snd).2.soundAcc ∧
    0 ≤ (processSound s snd).2.soundAcc ∧
    (processSound s snd).2.costumeAcc = s.costumeAcc ∧
    (0 ≤ (processSound s snd).1.soundID ∧
      (processSound s snd).1.soundID < (processSound s snd).2.soundAcc) ∧
    (∀ w : Int, s.soundAcc ≤ w → w < (processSound s snd).2.soundAcc →
      w = (processSound s snd).1.soundID) ∧
    (processSound s snd).1.md5 = snd.md5 := by
  obtain ⟨hm, hmono, hpos, hcost, hv, hnew⟩ :=
    assignSoundId_range m0 s snd.md5 hJ hacc hknotin
  unfold processSound
  exact ⟨hm, hmono, hpos, hcost, hv, hnew, rfl⟩

/-- Range facts for the whole costume pass: image ids of the rewritten
records are exactly the interval `[oldAcc, newAcc)` together with
already-bounded values, and new bindings are keyed by costume keys. -/
theorem processCostumes_range :
    ∀ (cs : List SB2Costume) (s : V2AssignState),
    (∀ e ∈ s.map, 0 ≤ e.2 ∧ e.2 < s.costumeAcc) →
    0 ≤ s.costumeAcc →
    (∀ e ∈ (processCostumes s cs).2.map,
      0 ≤ e.2 ∧ e.2 < (processCostumes s cs).2.costumeAcc) ∧
    s.costumeAcc ≤ (processCostumes s cs).2.costumeAcc ∧
    0 ≤ (processCostumes s cs).2.costumeAcc ∧
    (processCostumes s cs).2.soundAcc = s.soundAcc ∧
    (∀ v ∈ imageIdsOf (processCostumes s cs).1,
      0 ≤ v ∧ v < (processCostumes s cs).2.costumeAcc) ∧
    (∀ w : Int, s.costumeAcc ≤ w → w < (processCostumes s cs).2.costumeAcc →
      w ∈ imageIdsOf (processCostumes s cs).1) ∧
    (∀ e ∈ (processCostumes s cs).2.map, e ∈ s.map ∨ e.1 ∈ costumeKeys cs) := by
  intro cs
  induction cs with
  | nil =>
    intro s hCI hacc
    have h1 : (processCostumes s []).1 = [] := rfl
    have h2 : (processCostumes s []).2 = s := rfl
    refine ⟨hCI, le_refl _, hacc, rfl, ?_, ?_, fun e he => Or.inl he⟩
    · intro v hv
      rw [h1] at hv
      simp [imageIdsOf] at hv
    · intro w hw1 hw2
      rw [h2] at hw2
      omega
  | cons c rest ih =>
    intro s hCI hacc
    obtain ⟨hm1, hmono1, hpos1, hsnd1, hbv, htv, hnew1, hdom1, hbmd5, htmd5⟩ :=
      processCostume_range s c hCI hacc
    obtain ⟨hm2, hmono2, hpos2, hsnd2, hbound2, hnew2, hdom2⟩ :=
      ih (processCostume s c).2 hm1 hpos1
    have hcons1 : (processCostumes s (c :: rest)).1 =
        (processCostume s c).1 :: (processCostumes (processCostume s c).2 rest).1 := rfl
    have hcons2 : (processCostumes s (c :: rest)).2 =
        (processCostumes (processCostume s c).2 rest).2 := rfl
    rw [hcons1, hcons2]
    refine ⟨hm2, le_trans hmono1 hmono2, hpos2, hsnd2.trans hsnd1, ?_, ?_, ?_⟩
    · intro v hv
      rcases (mem_imageIdsOf_cons _ _ v).1 hv with he | ⟨htext, he⟩ | hmem
      · rw [he]
        exact ⟨hbv.1, lt_of_lt_of_le hbv.2 hmono2⟩
      · have htext2 : c.textLayerMD5 ≠ "" := by
          rw [htmd5] at htext
          exact htext
        obtain ⟨ht1, ht2⟩ := htv htext2
        rw [he]
        exact ⟨ht1, lt_of_lt_of_le ht2 hmono2⟩
      · exact hbound2 v hmem
    · intro w hw1 hw2
      by_cases hwb : w < (processCostume s c).2.costumeAcc
      · rcases hnew1 w hw1 hwb with he | ⟨htext, he⟩
        · exact (mem_imageIdsOf_cons _ _ w).2 (Or.inl he)
        · refine (mem_imageIdsOf_cons _ _ w).2 (Or.inr (Or.inl ⟨?_, he⟩))
          rw [htmd5]
          exact htext
      · exact (mem_imageIdsOf_cons _ _ w).2
          (Or.inr (Or.inr (hnew2 w (by omega) hw2)))
    · intro e he
      rcases hdom2 e he with he2 | he2
      · rcases hdom1 e he2 with he3 | he3 | he3
        · exact Or.inl he3
        · exact Or.inr ((mem_costumeKeys_cons _ _ _).2 (Or.inl he3))
        · exact Or.inr ((mem_costumeKeys_cons _ _ _).2 (Or.inr (Or.inl he3)))
      · exact Or.inr ((mem_costumeKeys_cons _ _ _).2 (Or.inr (Or.inr he2)))

/-- Range facts for the whole sound pass, relative to the base map `m0`. -/
theorem processSounds_range (m0 : List (String × Int)) :
    ∀ (ss : List SB2Sound) (s : V2AssignState),
    (∀ e ∈ s.map, e ∈ m0 ∨ (0 ≤ e.2 ∧ e.2 < s.soundAcc)) →
    0 ≤ s.soundAcc →
    (∀ snd ∈ ss, ∀ v : Int, (snd.md5, v) ∉ m0) →
    s.soundAcc ≤ (processSounds s ss).2.soundAcc ∧
    0 ≤ (processSounds s ss).2.soundAcc ∧
    (processSounds s ss).2.costumeAcc = s.costumeAcc ∧
    (∀ v ∈ soundIdsOf (processSounds s ss).1,
      0 ≤ v ∧ v < (processSounds s ss).2.soundAcc) ∧
    (∀ w : Int, s.soundAcc ≤ w → w < (processSounds s ss).2.soundAcc →
      w ∈ soundIdsOf (processSounds s ss).1) := by
  intro ss
  induction ss with
  | nil =>
    intro s hJ hacc _
    have h1 : (processSounds s []).1 = [] := rfl
    have h2 : (processSounds s []).2 = s := rfl
    refine ⟨le_refl _, hacc, rfl, ?_, ?_⟩
    · intro v hv
      rw [h1] at hv
      simp [soundIdsOf] at hv
    · intro w hw1 hw2
      rw [h2] at hw2
      omega
  | cons snd rest ih =>
    intro s hJ hacc hdisj
    obtain ⟨hm1, hmono1, hpos1, hcost1, hv1, hnew1, hmd51⟩ :=
      processSound_range m0 s snd hJ hacc (hdisj snd (List.mem_cons_self _ _))
    obtain ⟨hmono2, hpos2, hcost2, hbound2, hnew2⟩ :=
      ih (processSound s snd).2 hm1 hpos1
        (fun s2 hs2 => hdisj s2 (List.mem_cons_of_mem _ hs2))
    have hcons1 : (processSounds s (snd :: rest)).1 =
        (processSound s snd).1 :: (processSounds (processSound s snd).2 rest).1 := rfl
    have hcons2 : (processSounds s (snd :: rest)).2 =
        (processSounds (processSound s snd).2 rest).2 := rfl
    rw [hcons1, hcons2]
    refine ⟨le_trans hmono1 hmono2, hpos2, hcost2.trans hcost1, ?_, ?_⟩
    · intro v hv
      rcases (mem_soundIdsOf_cons _ _ v).1 hv with he | hmem
      · rw [he]
        exact ⟨hv1.1, lt_of_lt_of_le hv1.2 hmono2⟩
      · exact hbound2 v hmem
    · intro w hw1 hw2
      by_cases hwb : w < (processSound s snd).2.soundAcc
      · exact (mem_soundIdsOf_cons _ _ w).2 (Or.inl (hnew1 w hw1 hwb))
      · exact (mem_soundIdsOf_cons _ _ w).2 (Or.inr (hnew2 w (by omega) hw2))

/-- Characterization of the bindable keys of a costume list. -/
theorem mem_costumeKeys (cs : List SB2Costume) (k : String) :
    k ∈ costumeKeys cs ↔
      ∃ c ∈ cs, k = c.baseLayerMD5 ∨ (c.textLayerMD5 ≠ "" ∧ k = c.textLayerMD5) := by
  unfold costumeKeys
  simp only [List.mem_append, List.mem_map, List.mem_filter]
  constructor
  · rintro (⟨c, hc, he⟩ | ⟨c, ⟨hc, ht⟩, he⟩)
    · exact ⟨c, hc, Or.inl he.symm⟩
    · refine ⟨c, hc, Or.inr ⟨?_, he.symm⟩⟩
      simpa using ht
  · rintro ⟨c, hc, he | ⟨ht, he⟩⟩
    · exact Or.inl ⟨c, hc, he.symm⟩
    · refine Or.inr ⟨c, ⟨hc, ?_⟩, he.symm⟩
      simpa using ht

/-- `downloadAssets` over a fresh archive: the pre-seeding passes register
nothing and both accumulators start at 0. -/
theorem downloadAssetsV2_emptyZip_eq (cs : List SB2Costume) (ss : List SB2Sound) :
    downloadAssetsV2 emptyZip cs ss =
      { costumes := (processCostumes ⟨[], [], 0, 0⟩ cs).1
        sounds := (processSounds (processCostumes ⟨[], [], 0, 0⟩ cs).2 ss).1
        map := (processSounds (processCostumes ⟨[], [], 0, 0⟩ cs).2 ss).2.map
        needToFetch := (processSounds (processCostumes ⟨[], [], 0, 0⟩ cs).2 ss).2.needToFetch
        costumeAcc := (processSounds (processCostumes ⟨[], [], 0, 0⟩ cs).2 ss).2.costumeAcc
        soundAcc := (processSounds (processCostumes ⟨[], [], 0, 0⟩ cs).2 ss).2.soundAcc
        largestCostumeId := -1
        largestSoundId := -1 } := by
  unfold downloadAssetsV2
  simp only [preSeedCostumes_emptyZip, preSeedSounds_emptyZip]
  norm_num

/-- Counterexample to C3 as stated: with one image-type asset and one
sound-type asset (no pre-seeded ids), the image id set and the sound id
set both contain 0 — the two namespaces each start from zero, so as
integer sets they are not disjoint. -/
theorem claim_C3_counterexample :
    ¬ (∀ i : Int,
        i ∈ v2ImageIds (downloadAssetsV2 emptyZip
          [⟨"a.png", -1, "", 0⟩] [⟨"b.wav", -1⟩]) →
        i ∉ v2SoundIds (downloadAssetsV2 emptyZip
          [⟨"a.png", -1, "", 0⟩] [⟨"b.wav", -1⟩])) := by
  intro hall
  exact hall 0 (by decide) (by decide)

/-- C3 (amended): for a v2 description whose image keys and sound keys are
distinct (no pre-seeded ids, i.e. a fresh archive), the assigned image ids
are exactly the contiguous block `[0, costumeAccumulator)` and the
assigned sound ids are exactly the contiguous block
`[0, soundAccumulator)`; the two namespaces are independent, each starting
from zero, rather than disjoint as integer sets. -/
theorem claim_C3 (cs : List SB2Costume) (ss : List SB2Sound)
    (hdisj : ∀ c ∈ cs, ∀ snd ∈ ss,
      c.baseLayerMD5 ≠ snd.md5 ∧ (c.textLayerMD5 ≠ "" → c.textLayerMD5 ≠ snd.md5)) :
    (∀ i : Int, i ∈ v2ImageIds (downloadAssetsV2 emptyZip cs ss) ↔
      0 ≤ i ∧ i < (downloadAssetsV2 emptyZip cs ss).costumeAcc) ∧
    (∀ i : Int, i ∈ v2SoundIds (downloadAssetsV2 emptyZip cs ss) ↔
      0 ≤ i ∧ i < (downloadAssetsV2 emptyZip cs ss).soundAcc) := by
  rw [downloadAssetsV2_emptyZip_eq]
  obtain ⟨hm1, hmono1, hpos1, hsnd1, hbound1, hnew1, hdom1⟩ :=
    processCostumes_range cs ⟨[], [], 0, 0⟩
      (fun e he => absurd he (List.not_mem_nil e)) (le_refl 0)
  have hdisj2 : ∀ snd ∈ ss, ∀ v : Int,
      (snd.md5, v) ∉ (processCostumes ⟨[], [], 0, 0⟩ cs).2.map := by
    intro snd hsnd v hmem
    rcases hdom1 (snd.md5, v) hmem with h0 | hk
    · exact absurd h0 (List.not_mem_nil _)
    · obtain ⟨c, hc, hcase⟩ := (mem_costumeKeys cs snd.md5).1 hk
      rcases hcase with he | ⟨ht, he⟩
      · exact (hdisj c hc snd hsnd).1 he.symm
      · exact (hdisj c hc snd hsnd).2 ht he.symm
  obtain ⟨hmono2, hpos2, hcost2, hbound2, hnew2⟩ :=
    processSounds_range (processCostumes ⟨[], [], 0, 0⟩ cs).2.map ss
      (processCostumes ⟨[], [], 0, 0⟩ cs).2
      (fun e he => Or.inl he)
      (by rw [hsnd1])
      hdisj2
  constructor
  · intro i
    constructor
    · intro hmem
      have hb := hbound1 i hmem
      rw [← hcost2] at hb
      exact ⟨hb.1, hb.2⟩
    · rintro ⟨h0, hlt⟩
      rw [hcost2] at hlt
      exact hnew1 i h0 hlt
  · intro i
    constructor
    · intro hmem
      exact hbound2 i hmem
    · rintro ⟨h0, hlt⟩
      refine hnew2 i ?_ hlt
      rw [hsnd1]
      exact h0

/-- Witness for C3 on one image and one sound asset: both namespaces are
exactly the one-element block containing 0. -/
theorem claim_C3_witness :
    ((0 : Int) ∈ v2ImageIds (downloadAssetsV2 emptyZip
        [⟨"a.png", -1, "", 0⟩] [⟨"b.wav", -1⟩]) ↔
      0 ≤ (0 : Int) ∧ (0 : Int) < (downloadAssetsV2 emptyZip
        [⟨"a.png", -1, "", 0⟩] [⟨"b.wav", -1⟩]).costumeAcc) ∧
    ((0 : Int) ∈ v2SoundIds (downloadAssetsV2 emptyZip
        [⟨"a.png", -1, "", 0⟩] [⟨"b.wav", -1⟩]) ↔
      0 ≤ (0 : Int) ∧ (0 : Int) < (downloadAssetsV2 emptyZip
        [⟨"a.png", -1, "", 0⟩] [⟨"b.wav", -1⟩]).soundAcc) :=
  ⟨(claim_C3 [⟨"a.png", -1, "", 0⟩] [⟨"b.wav", -1⟩] (by decide)).1 0,
   (claim_C3 [⟨"a.png", -1, "", 0⟩] [⟨"b.wav", -1⟩] (by decide)).2 0⟩

end SBDL
